import Mathlib

/-!
# Jenkins job values generation

A shallow embedding of `pkg/cmd/jenkins/jobs/jobs.go` (command `jx gitops jenkins jobs`).

* Go strings are Lean `String`s.
* A Go `error` is its message (`Error()`); `errors.Wrapf(err, m)` is `m ++ ": " ++ err`.
* Methods on `*Options` take the receiver and return the updated receiver together with a
  `Status` (no error, an error, or a run-time panic), so the receiver's value at the moment
  an error is returned stays observable.
* The source config is mutable: the loops of `Run` go by index over the lists held by the
  receiver, and the repository normalised by `sourceconfigs.DefaultValues` is written back
  in place before its job template is resolved.
* A Go map is the list of its entries; the nil map is `none`; the order in which `range`
  visits a map is a parameter.
* `filepath.Join` and `filepath.Clean` are those of Unix (separator `/`, no volume names).
* Everything outside the package (file system, YAML loading, the default-value normaliser,
  the template engine, the helmfile scaffolder, the iteration order of a Go map) is a field
  of `Env`. The file system answers the same throughout one call of `Run`, which reads
  (validation, discovery, collection) before it writes (output).
* Logging is left out.
-/

namespace Jobs

/-! ## `strings` -/

/-- Splitting of a character sequence at every occurrence of the separator `sep`. -/
def splitChars (sep : Char) : List Char → List (List Char)
  | [] => [[]]
  | c :: cs =>
    if c = sep then [] :: splitChars sep cs
    else match splitChars sep cs with
      | [] => [[c]]
      | l :: ls => (c :: l) :: ls

/-- Go `strings.Split(s, sep)` for a separator of one byte, the only way the source calls it
(`strings.Split(text, "\n")`). -/
def stringsSplit (s : String) (sep : Char) : List String :=
  (splitChars sep s.data).map String.mk

/-- Go `strings.Join(elems, sep)`. -/
def stringsJoin : List String → String → String
  | [], _ => ""
  | [a], _ => a
  | a :: b :: rest, sep => a ++ sep ++ stringsJoin (b :: rest) sep

/-- Joining of character sequences, the `data` of `stringsJoin`. -/
def joinChars : List (List Char) → List Char → List Char
  | [], _ => []
  | [a], _ => a
  | a :: b :: rest, sep => a ++ sep ++ joinChars (b :: rest) sep

/-- Removal of the leading `indent` from a line (Go `strings.TrimPrefix`). -/
def stripIndent (indent line : String) : String :=
  if indent.data.isPrefixOf line.data then String.mk (line.data.drop indent.data.length) else line

/-! ## `path/filepath` on Unix -/

/-- The element stack of Go `filepath.Clean`: empty and `.` elements are dropped, a `..`
element removes the element before it when there is one to remove, is dropped at the root
of a rooted path, and is kept at the front of a relative path. The stack `out` is held in
reverse. -/
def cleanElems (rooted : Bool) : List (List Char) → List (List Char) → List (List Char)
  | [], out => out.reverse
  | e :: es, out =>
    if e = [] ∨ e = ['.'] then cleanElems rooted es out
    else if e = ['.', '.'] then
      match out with
      | top :: rest =>
        if top = ['.', '.'] then cleanElems rooted es (e :: out)
        else cleanElems rooted es rest
      | [] => if rooted then cleanElems rooted es [] else cleanElems rooted es [e]
    else cleanElems rooted es (e :: out)

/-- Go `filepath.Clean` with separator `/` and no volume names. -/
def filepathClean (path : String) : String :=
  if path = "" then "."
  else
    let rooted := path.data.head? = some '/'
    let body := stringsJoin ((cleanElems rooted (splitChars '/' path.data) []).map String.mk) "/"
    if rooted then "/" ++ body
    else if body = "" then "." else body

/-- Go `filepath.Join(elem...)`: the elements from the first non-empty one on are joined by
`/` and the result is cleaned; the empty string when every element is empty. -/
def filepathJoin : List String → String
  | [] => ""
  | e :: es => if e ≠ "" then filepathClean (stringsJoin (e :: es) "/") else filepathJoin es

/-! ## Constants of the package -/

/-- The header of every generated values file (`jobValuesHeader`). -/
def jobValuesHeader : String :=
  "# NOTE this file is autogenerated - DO NOT EDIT!\n#\n# This file is generated from the template files via the command: \n#    jx gitops jenkins jobs\ncontroller:\n  JCasC:\n    configScripts:\n      jxsetup: |\n        jobs:\n          - script: |\n"

/-- The indentation of rendered text (`indent`): fourteen spaces. -/
def indent : String := "              "

/-- Modelled from the spec: the constant `v1alpha1.SourceConfigFileName`, declared in
`pkg/apis/gitops/v1alpha1`; the spec gives the default configuration file as
`<dir>/.jx/gitops/source-config.yaml`. -/
def SourceConfigFileName : String := "source-config.yaml"

/-! ## Data model

The `v1alpha1` types are declared outside `jobs.go`; the fields below are the ones the
package reads or writes. -/

/-- The type `v1alpha1.Repository`. -/
structure Repository where
  Name : String
  URL : String
  HTTPCloneURL : String
  JenkinsJobTemplate : String
deriving DecidableEq

/-- The type `v1alpha1.RepositoryGroup`. -/
structure RepositoryGroup where
  Owner : String
  Provider : String
  ProviderKind : String
  ProviderName : String
  JenkinsFolderTemplate : String
  JenkinsJobTemplate : String
  Repositories : List Repository
deriving DecidableEq

/-- The type `v1alpha1.JenkinsServer`. -/
structure JenkinsServer where
  Server : String
  FolderTemplate : String
  JobTemplate : String
  Groups : List RepositoryGroup
deriving DecidableEq

/-- The type `v1alpha1.SourceConfigSpec`. -/
structure SourceConfigSpec where
  JenkinsServers : List JenkinsServer
  JenkinsFolderTemplate : String
  JenkinsJobTemplate : String
deriving DecidableEq

/-- The type `v1alpha1.SourceConfig`. -/
structure SourceConfig where
  Spec : SourceConfigSpec
deriving DecidableEq

/-- The data to render one Jenkins config fragment (`JenkinsTemplateConfig`). The values of
`TemplateData` are all strings in this package; the dictionary is kept in the order of the
source's map literal. -/
structure JenkinsTemplateConfig where
  Server : String
  Key : String
  TemplateFile : String
  TemplateText : String
  TemplateData : List (String × String)
deriving DecidableEq

/-- A Go `map[string][]*JenkinsTemplateConfig` that is not nil: its entries. -/
abbrev ServerTemplates := List (String × List JenkinsTemplateConfig)

/-- Map read `m[k]`: the stored sequence, the nil slice when the key is absent. -/
def mapGet : ServerTemplates → String → List JenkinsTemplateConfig
  | [], _ => []
  | (k', v) :: rest, k => if k' = k then v else mapGet rest k

/-- Map write `m[k] = v`. -/
def mapSet : ServerTemplates → String → List JenkinsTemplateConfig → ServerTemplates
  | [], k, v => [(k, v)]
  | (k', v') :: rest, k, v => if k' = k then (k, v) :: rest else (k', v') :: mapSet rest k v

/-- The options of the command (`Options`). `JenkinsServerTemplates` is `none` for the nil
map. -/
structure Options where
  Dir : String
  ConfigFile : String
  OutDir : String
  DefaultTemplate : String
  NoCreateHelmfile : Bool
  SourceConfig : SourceConfig
  JenkinsServerTemplates : Option ServerTemplates
deriving DecidableEq

/-- How a call ends: it returns `nil`, it returns an error with the given message, or it
panics. -/
inductive Status where
  | ok
  | err (msg : String)
  | panicked (msg : String)
deriving DecidableEq

/-- The collaborators of the package.

* `fileExists` is `files.FileExists`, `readFile` is `os.ReadFile`, `mkdirAll` is
  `os.MkdirAll`, `writeFile` is `os.WriteFile` (`some msg` is a failure);
* `loadFile` is `yamls.LoadFile` into the given value;
* `defaultValues` is `sourceconfigs.DefaultValues`, which the spec describes as: given the
  full config, a group and a repository, it fills the repository's inherited defaults in
  place and may fail; it returns the updated repository;
* `evaluate` is `templater.Evaluate` with the sprig function map: data, template text,
  template path, context label;
* `jenkinsAddRun` is `Run` of the `jenkins add` command with the given `Name`, `Dir` and
  `Values`;
* `rangeOrder` is the order in which `range` visits the entries of a map, each entry once
  (`rangeOrder_perm`). -/
structure Env where
  fileExists : String → Except String Bool
  readFile : String → Except String String
  loadFile : String → SourceConfig → Except String SourceConfig
  defaultValues : SourceConfig → RepositoryGroup → Repository → Except String Repository
  evaluate : List (String × String) → String → String → String → Except String String
  mkdirAll : String → Option String
  jenkinsAddRun : String → String → List String → Option String
  writeFile : String → String → Option String
  rangeOrder : ServerTemplates → ServerTemplates
  rangeOrder_perm : ∀ m, (rangeOrder m).Perm m

/-- The message of `errors.Wrapf(err, msg)`. -/
def wrapf (msg cause : String) : String := msg ++ ": " ++ cause

/-- A loop `for _, x := range xs { body }` whose body may return from the function: the
loop stops at the first status that is not `ok`. -/
def forEach {α σ : Type} (body : α → σ → σ × Status) : List α → σ → σ × Status
  | [], s => (s, Status.ok)
  | x :: xs, s =>
    match body x s with
    | (s', Status.ok) => forEach body xs s'
    | r => r

/-! ## Helpers of the package -/

/-- The function `indentText`. -/
def indentText (text indent : String) : String :=
  let lines := stringsSplit text '\n'
  indent ++ stringsJoin lines ("\n" ++ indent)

/-- The function `firstNonBlankValue`. -/
def firstNonBlankValue : List String → String
  | [] => ""
  | v :: values => if v ≠ "" then v else firstNonBlankValue values

/-- Modelled from the spec: `scm.Join` of `github.com/jenkins-x/go-scm`, which joins the
owner and the name of a repository into its full name, `"owner/repo"` in the spec. -/
def scmJoin (owner name : String) : String := owner ++ "/" ++ name

/-! ## The methods of `Options` -/

/-- The method `Options.Validate`. -/
def Validate (env : Env) (o : Options) : Options × Status :=
  let o := if o.ConfigFile = "" then
      { o with ConfigFile := filepathJoin [o.Dir, ".jx", "gitops", SourceConfigFileName] }
    else o
  let o := if o.OutDir = "" then { o with OutDir := filepathJoin [o.Dir, "helmfiles"] } else o
  match env.fileExists o.ConfigFile with
  | Except.error e => (o, Status.err (wrapf ("failed to check if file exists " ++ o.ConfigFile) e))
  | Except.ok false => (o, Status.ok)
  | Except.ok true =>
    let checked : Status :=
      if o.DefaultTemplate ≠ "" then
        match env.fileExists o.DefaultTemplate with
        | Except.error e =>
          Status.err (wrapf ("failed to check if file exists " ++ o.DefaultTemplate) e)
        | Except.ok false =>
          Status.err ("the default-xml-template file " ++ o.DefaultTemplate ++ " does not exist")
        | Except.ok true => Status.ok
      else Status.ok
    match checked with
    | Status.ok =>
      match env.loadFile o.ConfigFile o.SourceConfig with
      | Except.error e => (o, Status.err (wrapf ("failed to load file " ++ o.ConfigFile) e))
      | Except.ok config =>
        let o := { o with SourceConfig := config }
        match o.JenkinsServerTemplates with
        | none => ({ o with JenkinsServerTemplates := some [] }, Status.ok)
        | some _ => (o, Status.ok)
    | st => (o, st)

/-- The method `Options.processJenkinsServerJobTemplate`. -/
def processJenkinsServerJobTemplate (env : Env) (o : Options) (server key jobTemplatePath : String)
    (templateData : List (String × String)) : Options × Status :=
  let jobTemplate := filepathJoin [o.Dir, jobTemplatePath]
  match env.fileExists jobTemplate with
  | Except.error e => (o, Status.err (wrapf ("failed to check if file exists " ++ jobTemplate) e))
  | Except.ok false => (o, Status.err ("the jobTemplate file " ++ jobTemplate ++ " does not exist"))
  | Except.ok true =>
    match env.readFile jobTemplate with
    | Except.error e => (o, Status.err (wrapf ("failed to load file " ++ jobTemplate) e))
    | Except.ok data =>
      match o.JenkinsServerTemplates with
      | none => (o, Status.panicked "assignment to entry in nil map")
      | some m =>
        let jcfg : JenkinsTemplateConfig :=
          { Server := server, Key := key, TemplateFile := jobTemplate, TemplateText := data,
            TemplateData := templateData }
        ({ o with JenkinsServerTemplates := some (mapSet m server (mapGet m server ++ [jcfg])) },
          Status.ok)

/-- The method `Options.processJenkinsJobConfigForGroup`. -/
def processJenkinsJobConfigForGroup (env : Env) (o : Options) (group : RepositoryGroup)
    (server jobTemplatePath : String) : Options × Status :=
  let owner := group.Owner
  if server = "" then (o, Status.ok)
  else if jobTemplatePath = "" then (o, Status.ok)
  else
    let templateData : List (String × String) :=
      [("ID", owner), ("GitServerURL", group.Provider), ("GitKind", group.ProviderKind),
       ("GitName", group.ProviderName), ("Server", server)]
    processJenkinsServerJobTemplate env o server owner jobTemplatePath templateData

/-- The method `Options.processJenkinsJobConfigForRepository`. -/
def processJenkinsJobConfigForRepository (env : Env) (o : Options) (group : RepositoryGroup)
    (repo : Repository) (server jobTemplatePath : String) : Options × Status :=
  if server = "" then (o, Status.ok)
  else if jobTemplatePath = "" then (o, Status.ok)
  else
    let fullName := scmJoin group.Owner repo.Name
    let templateData : List (String × String) :=
      [("ID", group.Owner ++ "-" ++ repo.Name), ("FullName", fullName), ("Owner", group.Owner),
       ("GitServerURL", group.Provider), ("GitKind", group.ProviderKind),
       ("GitName", group.ProviderName), ("Repository", repo.Name), ("URL", repo.URL),
       ("CloneURL", repo.HTTPCloneURL), ("Server", server)]
    processJenkinsServerJobTemplate env o server fullName jobTemplatePath templateData

/-- The method `Options.verifyServerHelmfileExists`: `some msg` is the error it returns. -/
def verifyServerHelmfileExists (env : Env) (o : Options) (server : String) : Option String :=
  match env.jenkinsAddRun server o.Dir ["job-values.yaml", "values.yaml"] with
  | some e => some (wrapf "failed to add jenkins server" e)
  | none => none

/-! ## `Options.Run`, phase by phase -/

/-- Assignment to `config.Spec.JenkinsFolderTemplate`. -/
def setFolderTemplate (o : Options) (v : String) : Options :=
  { o with SourceConfig := { Spec := { o.SourceConfig.Spec with JenkinsFolderTemplate := v } } }

/-- Assignment to `config.Spec.JenkinsJobTemplate`. -/
def setJobTemplate (o : Options) (v : String) : Options :=
  { o with SourceConfig := { Spec := { o.SourceConfig.Spec with JenkinsJobTemplate := v } } }

/-- First `if` of the body of the discovery loop of `Run` (lines 144-154). -/
def discoverFolder (env : Env) (jenkinsTemplatePath : String) (o : Options) : Options × Status :=
  if o.SourceConfig.Spec.JenkinsFolderTemplate = "" then
    let relPath := filepathJoin [jenkinsTemplatePath, "folder.gotmpl"]
    let path := filepathJoin [o.Dir, relPath]
    match env.fileExists path with
    | Except.error e => (o, Status.err (wrapf ("failed to check if path exists " ++ path) e))
    | Except.ok true => (setFolderTemplate o relPath, Status.ok)
    | Except.ok false => (o, Status.ok)
  else (o, Status.ok)

/-- Second `if` of the body of the discovery loop of `Run` (lines 155-165). -/
def discoverJob (env : Env) (jenkinsTemplatePath : String) (o : Options) : Options × Status :=
  if o.SourceConfig.Spec.JenkinsJobTemplate = "" then
    let relPath := filepathJoin [jenkinsTemplatePath, "job.gotmpl"]
    let path := filepathJoin [o.Dir, relPath]
    match env.fileExists path with
    | Except.error e => (o, Status.err (wrapf ("failed to check if path exists " ++ path) e))
    | Except.ok true => (setJobTemplate o relPath, Status.ok)
    | Except.ok false => (o, Status.ok)
  else (o, Status.ok)

/-- Body of the discovery loop of `Run` (lines 144-165). -/
def discoverBody (env : Env) (jenkinsTemplatePath : String) (o : Options) : Options × Status :=
  match discoverFolder env jenkinsTemplatePath o with
  | (o1, Status.ok) => discoverJob env jenkinsTemplatePath o1
  | r => r

/-- The value `localJenkinsfilePath` of `Run`. -/
def localJenkinsfilePath : String := filepathJoin ["jenkins", "templates"]

/-- The discovery loop of `Run` (lines 142-166). -/
def discoverTemplates (env : Env) (o : Options) : Options × Status :=
  forEach (discoverBody env)
    [localJenkinsfilePath, filepathJoin ["versionStream", localJenkinsfilePath]] o

/-- The element `config.Spec.JenkinsServers[i]`. -/
def serverAt (o : Options) (i : Nat) : Option JenkinsServer :=
  o.SourceConfig.Spec.JenkinsServers[i]?

/-- The element `config.Spec.JenkinsServers[i].Groups[j]`. -/
def groupAt (o : Options) (i j : Nat) : Option RepositoryGroup :=
  match serverAt o i with
  | some server => server.Groups[j]?
  | none => none

/-- The in-place update of `config.Spec.JenkinsServers[i].Groups[j].Repositories[k]`. -/
def setRepo (o : Options) (i j k : Nat) (repo : Repository) : Options :=
  match serverAt o i with
  | none => o
  | some server =>
    match server.Groups[j]? with
    | none => o
    | some group =>
      let group1 := { group with Repositories := group.Repositories.set k repo }
      let server1 := { server with Groups := server.Groups.set j group1 }
      { o with SourceConfig :=
          { Spec := { o.SourceConfig.Spec with
              JenkinsServers := o.SourceConfig.Spec.JenkinsServers.set i server1 } } }

/-- Body of the first loop over the groups of server `i` (lines 172-179). -/
def folderStep (env : Env) (i : Nat) (serverName : String) (j : Nat) (o : Options) :
    Options × Status :=
  match serverAt o i, groupAt o i j with
  | some server, some group =>
    if group.Repositories.length > 0 then
      let jobTemplate := firstNonBlankValue
        [group.JenkinsFolderTemplate, server.FolderTemplate,
         o.SourceConfig.Spec.JenkinsFolderTemplate]
      match processJenkinsJobConfigForGroup env o group serverName jobTemplate with
      | (o1, Status.err e) =>
        (o1, Status.err (wrapf ("failed to process Jenkins Config for group " ++ group.Owner) e))
      | r => r
    else (o, Status.ok)
  | _, _ => (o, Status.panicked "index out of range")

/-- Body of the loop over the repositories of group `j` of server `i` (lines 184-193). -/
def repoStep (env : Env) (i : Nat) (serverName : String) (j k : Nat) (o : Options) :
    Options × Status :=
  match groupAt o i j with
  | none => (o, Status.panicked "index out of range")
  | some group0 =>
    match group0.Repositories[k]? with
    | none => (o, Status.panicked "index out of range")
    | some repo0 =>
      match env.defaultValues o.SourceConfig group0 repo0 with
      | Except.error e => (o, Status.err (wrapf "failed to set default values for jenkins" e))
      | Except.ok repo =>
        let o1 := setRepo o i j k repo
        match serverAt o1 i, groupAt o1 i j with
        | some server, some group =>
          let jobTemplate := firstNonBlankValue
            [repo.JenkinsJobTemplate, group.JenkinsJobTemplate, server.JobTemplate,
             o1.SourceConfig.Spec.JenkinsJobTemplate]
          match processJenkinsJobConfigForRepository env o1 group repo serverName jobTemplate with
          | (o2, Status.err e) =>
            (o2, Status.err
              (wrapf ("failed to process Jenkins Config for repository " ++ repo.Name) e))
          | r => r
        | _, _ => (o1, Status.panicked "index out of range")

/-- Body of the second loop over the groups of server `i` (lines 182-194). -/
def groupReposStep (env : Env) (i : Nat) (serverName : String) (j : Nat) (o : Options) :
    Options × Status :=
  match groupAt o i j with
  | none => (o, Status.panicked "index out of range")
  | some group => forEach (repoStep env i serverName j) (List.range group.Repositories.length) o

/-- Body of the loop over the servers (lines 169-195). -/
def serverStep (env : Env) (i : Nat) (o : Options) : Options × Status :=
  match serverAt o i with
  | none => (o, Status.panicked "index out of range")
  | some server =>
    let serverName := server.Server
    match forEach (folderStep env i serverName) (List.range server.Groups.length) o with
    | (o1, Status.ok) =>
      match serverAt o1 i with
      | none => (o1, Status.panicked "index out of range")
      | some server1 =>
        forEach (groupReposStep env i serverName) (List.range server1.Groups.length) o1
    | r => r

/-- The collection phase of `Run` (lines 168-196). -/
def collect (env : Env) (o : Options) : Options × Status :=
  forEach (serverStep env) (List.range o.SourceConfig.Spec.JenkinsServers.length) o

/-- The text appended to the buffer for one rendered request (lines 224-226). -/
def fragment (tmplpath output : String) : String :=
  (indent ++ "// from template: " ++ tmplpath ++ "\n") ++ indentText output indent
    ++ (indent ++ "\n")

/-- The loop over the requests of one server (lines 218-227): the buffer, or the error. -/
def renderConfigs (env : Env) (server : String) :
    List JenkinsTemplateConfig → String → Except String String
  | [], buf => Except.ok buf
  | jcfg :: configs, buf =>
    let tmplpath := jcfg.TemplateFile
    match env.evaluate jcfg.TemplateData jcfg.TemplateText tmplpath ("Jenkins Server " ++ server) with
    | Except.error e => Except.error (wrapf ("failed to evaluate template " ++ tmplpath) e)
    | Except.ok output => renderConfigs env server configs (buf ++ fragment tmplpath output)

/-- Body of the output loop of `Run` (lines 199-232). The state is the list of the files
written so far, each with its path and content, oldest first. -/
def writeServer (env : Env) (o : Options) (entry : String × List JenkinsTemplateConfig)
    (written : List (String × String)) : List (String × String) × Status :=
  let server := entry.1
  let configs := entry.2
  let dir := filepathJoin [o.OutDir, server]
  match env.mkdirAll dir with
  | some e => (written, Status.err (wrapf ("failed to create dir " ++ dir) e))
  | none =>
    match verifyServerHelmfileExists env o server with
    | some e =>
      (written,
        Status.err (wrapf ("failed to verify the jenkins helmfile exists for " ++ server) e))
    | none =>
      let path := filepathJoin [dir, "job-values.yaml"]
      match renderConfigs env server configs jobValuesHeader with
      | Except.error e => (written, Status.err e)
      | Except.ok buf =>
        match env.writeFile path buf with
        | some e => (written, Status.err (wrapf ("failed to save file " ++ path) e))
        | none => (written ++ [(path, buf)], Status.ok)

/-- The output phase of `Run` (lines 198-234); ranging over a nil map visits nothing. -/
def writeOutputs (env : Env) (o : Options) : List (String × String) × Status :=
  match o.JenkinsServerTemplates with
  | none => ([], Status.ok)
  | some m => forEach (writeServer env o) (env.rangeOrder m) []

/-- What a call of `Run` leaves behind: the receiver, the values files written (path and
content, oldest first) and how the call ended. -/
structure RunResult where
  options : Options
  written : List (String × String)
  status : Status
deriving DecidableEq

/-- The method `Options.Run`. -/
def Run (env : Env) (o : Options) : RunResult :=
  match Validate env o with
  | (o1, Status.ok) =>
    match discoverTemplates env o1 with
    | (o2, Status.ok) =>
      match collect env o2 with
      | (o3, Status.ok) =>
        let w := writeOutputs env o3
        { options := o3, written := w.1, status := w.2 }
      | (o3, st) => { options := o3, written := [], status := st }
    | (o2, st) => { options := o2, written := [], status := st }
  | (o1, Status.err e) =>
    { options := o1, written := [], status := Status.err (wrapf "failed to validate options" e) }
  | (o1, st) => { options := o1, written := [], status := st }


/-! ## Notions used in the statements -/

/-- The configuration file `Validate` looks for: `ConfigFile`, or its default under `Dir`
(lines 97-99). -/
def resolvedConfigFile (o : Options) : String :=
  if o.ConfigFile = "" then filepathJoin [o.Dir, ".jx", "gitops", SourceConfigFileName]
  else o.ConfigFile

/-- The output directory `Validate` settles on: `OutDir`, or its default under `Dir`
(lines 100-102). -/
def resolvedOutDir (o : Options) : String :=
  if o.OutDir = "" then filepathJoin [o.Dir, "helmfiles"] else o.OutDir

/-- Concatenation of a list of texts. -/
def concatAll : List String → String
  | [] => ""
  | a :: rest => a ++ concatAll rest

/-- The text a request renders to for a server (the empty text when rendering fails). -/
def rendered (env : Env) (server : String) (jcfg : JenkinsTemplateConfig) : String :=
  match env.evaluate jcfg.TemplateData jcfg.TemplateText jcfg.TemplateFile
      ("Jenkins Server " ++ server) with
  | Except.ok output => output
  | Except.error _ => ""

/-- A request renders without error for a server. -/
def renders (env : Env) (server : String) (jcfg : JenkinsTemplateConfig) : Prop :=
  ∃ output, env.evaluate jcfg.TemplateData jcfg.TemplateText jcfg.TemplateFile
    ("Jenkins Server " ++ server) = Except.ok output

/-- The content of a values file as the spec words it: the fixed header followed, for each
queued request in queue order, by the comment line naming the template file, then the
indented rendered text, then the indent and a newline. -/
def valuesFileText (env : Env) (server : String) (configs : List JenkinsTemplateConfig) :
    String :=
  jobValuesHeader ++ concatAll (configs.map (fun jcfg =>
    indent ++ "// from template: " ++ jcfg.TemplateFile ++ "\n"
      ++ indentText (rendered env server jcfg) indent ++ indent ++ "\n"))

/-- The values file of one entry of the server map: its path under the output directory
and its content. -/
def valuesFile (env : Env) (outDir : String) (entry : String × List JenkinsTemplateConfig) :
    String × String :=
  (filepathJoin [filepathJoin [outDir, entry.1], "job-values.yaml"],
    valuesFileText env entry.1 entry.2)

/-- The text of a template file (the empty text when it cannot be read). -/
def textOf (env : Env) (path : String) : String :=
  match env.readFile path with
  | Except.ok data => data
  | Except.error _ => ""

/-- The folder request the spec describes for a group of a server: for a group with at
least one repository, a server name and a resolved folder template (group, then server,
then global), the request keyed by the owner with the dictionary
`ID, GitServerURL, GitKind, GitName, Server`; nothing otherwise. -/
def folderRequest (env : Env) (dir globalFolderTemplate : String) (server : JenkinsServer)
    (group : RepositoryGroup) : Option JenkinsTemplateConfig :=
  let template := firstNonBlankValue
    [group.JenkinsFolderTemplate, server.FolderTemplate, globalFolderTemplate]
  if group.Repositories.length > 0 ∧ server.Server ≠ "" ∧ template ≠ "" then
    some { Server := server.Server, Key := group.Owner,
           TemplateFile := filepathJoin [dir, template],
           TemplateText := textOf env (filepathJoin [dir, template]),
           TemplateData :=
            [("ID", group.Owner), ("GitServerURL", group.Provider),
             ("GitKind", group.ProviderKind), ("GitName", group.ProviderName),
             ("Server", server.Server)] }
  else none

/-- The job request the spec describes for a repository of a group of a server: with a
server name and a resolved job template (repository, then group, then server, then global),
the request keyed by the full name `owner/repo` with the ten-key dictionary; nothing
otherwise. -/
def jobRequest (env : Env) (dir globalJobTemplate : String) (server : JenkinsServer)
    (group : RepositoryGroup) (repo : Repository) : Option JenkinsTemplateConfig :=
  let template := firstNonBlankValue
    [repo.JenkinsJobTemplate, group.JenkinsJobTemplate, server.JobTemplate, globalJobTemplate]
  if server.Server ≠ "" ∧ template ≠ "" then
    some { Server := server.Server, Key := group.Owner ++ "/" ++ repo.Name,
           TemplateFile := filepathJoin [dir, template],
           TemplateText := textOf env (filepathJoin [dir, template]),
           TemplateData :=
            [("ID", group.Owner ++ "-" ++ repo.Name),
             ("FullName", group.Owner ++ "/" ++ repo.Name), ("Owner", group.Owner),
             ("GitServerURL", group.Provider), ("GitKind", group.ProviderKind),
             ("GitName", group.ProviderName), ("Repository", repo.Name), ("URL", repo.URL),
             ("CloneURL", repo.HTTPCloneURL), ("Server", server.Server)] }
  else none

/-- The job requests of one group, in repository order. -/
def groupJobRequests (env : Env) (dir globalJobTemplate : String) (server : JenkinsServer)
    (group : RepositoryGroup) : List JenkinsTemplateConfig :=
  group.Repositories.filterMap (jobRequest env dir globalJobTemplate server group)

/-- The requests of one server entry in arrival order as the spec words it: the folder
requests of its groups, in group order, and after them the job requests of its
repositories, in group order and then repository order. -/
def serverRequests (env : Env) (dir globalFolderTemplate globalJobTemplate : String)
    (server : JenkinsServer) : List JenkinsTemplateConfig :=
  server.Groups.filterMap (folderRequest env dir globalFolderTemplate server)
    ++ (server.Groups.map (groupJobRequests env dir globalJobTemplate server)).flatten

/-- The requests of all the server entries of the given list that carry the name `name`, in
the order of the entries. -/
def requestsFor (env : Env) (dir globalFolderTemplate globalJobTemplate : String)
    (servers : List JenkinsServer) (name : String) : List JenkinsTemplateConfig :=
  ((servers.filter (fun server => server.Server = name)).map
    (serverRequests env dir globalFolderTemplate globalJobTemplate)).flatten

/-- The requests the source config of the receiver queues under the server name `name`. -/
def queuedFor (env : Env) (o : Options) (name : String) : List JenkinsTemplateConfig :=
  requestsFor env o.Dir o.SourceConfig.Spec.JenkinsFolderTemplate
    o.SourceConfig.Spec.JenkinsJobTemplate o.SourceConfig.Spec.JenkinsServers name

/-- The receiver with the list of servers of its source config replaced. -/
def withServers (o : Options) (servers : List JenkinsServer) : Options :=
  { o with SourceConfig := { Spec := { o.SourceConfig.Spec with JenkinsServers := servers } } }

/-- The group with its list of repositories replaced. -/
def withRepos (group : RepositoryGroup) (repos : List Repository) : RepositoryGroup :=
  { group with Repositories := repos }

/-- The server with its list of groups replaced. -/
def withGroups (server : JenkinsServer) (groups : List RepositoryGroup) : JenkinsServer :=
  { server with Groups := groups }

/-- The receiver with its server map replaced. -/
def withTemplates (o : Options) (m : ServerTemplates) : Options :=
  { o with JenkinsServerTemplates := some m }

/-- The map `m1` is the map `m` with the requests `reqs` appended, in order, to the sequence
of the server `name`, every other sequence being the same. -/
def Appended (m m1 : ServerTemplates) (name : String) (reqs : List JenkinsTemplateConfig) :
    Prop :=
  ∀ s, mapGet m1 s = mapGet m s ++ if s = name then reqs else []

/-- The group `g1` is the group `g` with each of its repositories replaced by a value of
the normaliser: same fields otherwise, as many repositories. -/
def Normalised (g g1 : RepositoryGroup) : Prop :=
  ∃ repos1 : List Repository, repos1.length = g.Repositories.length ∧ g1 = withRepos g repos1

/-- The server `server1` is the server `server` with the repositories of its groups
normalised: same name and templates, the same groups in the same order. -/
def NormalisedServer (server server1 : JenkinsServer) : Prop :=
  ∃ groups1 : List RepositoryGroup,
    List.Forall₂ Normalised server.Groups groups1 ∧ server1 = withGroups server groups1

/-- The sequence stored under the server name `name` in the receiver's map (the nil slice
for the nil map). -/
def sequenceOf (o : Options) (name : String) : List JenkinsTemplateConfig :=
  match o.JenkinsServerTemplates with
  | some m => mapGet m name
  | none => []

/-- Every sequence of the receiver `o1` is the sequence of the receiver `o` under the same
name with requests appended at the end. -/
def Extends (o o1 : Options) : Prop :=
  ∀ s, ∃ added, sequenceOf o1 s = sequenceOf o s ++ added

/-- The receiver a phase leaves when it returned no error. -/
def okState (r : Options × Status) : Option Options :=
  match r with
  | (o, Status.ok) => some o
  | _ => none

/-- The receiver when `Run` starts the iteration of its loop over the servers for the server
of index `i`, if the run gets that far. -/
def atServer (env : Env) (o : Options) (i : Nat) : Option Options :=
  (okState (Validate env o)).bind fun o1 =>
  (okState (discoverTemplates env o1)).bind fun o2 =>
  if i < o2.SourceConfig.Spec.JenkinsServers.length then
    okState (forEach (serverStep env) (List.range i) o2)
  else none

/-- The server name `Run` holds in `serverName`, and the receiver, when `Run` starts the
iteration of the first loop over the groups of server `i` for the group of index `j`, if
the run gets that far. -/
def atFolderStep (env : Env) (o : Options) (i j : Nat) : Option (String × Options) :=
  (atServer env o i).bind fun o3 =>
  (serverAt o3 i).bind fun server =>
  if j < server.Groups.length then
    (okState (forEach (folderStep env i server.Server) (List.range j) o3)).map
      fun o4 => (server.Server, o4)
  else none

/-- The server name `Run` holds in `serverName`, and the receiver, when `Run` starts the
iteration of the loop over the repositories of group `j` of server `i` for the repository of
index `k`, if the run gets that far. -/
def atRepoStep (env : Env) (o : Options) (i j k : Nat) : Option (String × Options) :=
  (atServer env o i).bind fun o3 =>
  (serverAt o3 i).bind fun server =>
  (okState (forEach (folderStep env i server.Server) (List.range server.Groups.length) o3)).bind
    fun o4 =>
  (serverAt o4 i).bind fun server1 =>
  if j < server1.Groups.length then
    (okState (forEach (groupReposStep env i server.Server) (List.range j) o4)).bind fun o5 =>
    (groupAt o5 i j).bind fun group =>
    if k < group.Repositories.length then
      (okState (forEach (repoStep env i server.Server j) (List.range k) o5)).map
        fun o6 => (server.Server, o6)
    else none
  else none

/-- The text `part` occurs in the text `whole`. -/
def occursIn (part whole : String) : Bool :=
  whole.data.tails.any (fun t => part.data.isPrefixOf t)

/-- The message of an error status (the empty text for the other statuses). -/
def messageOf (st : Status) : String :=
  match st with
  | Status.err msg => msg
  | _ => ""

/-! ## Sample inputs -/

/-- A repository `widgets` with no template of its own. -/
def widgets : Repository :=
  { Name := "widgets", URL := "https://github.com/acme/widgets",
    HTTPCloneURL := "https://github.com/acme/widgets.git", JenkinsJobTemplate := "" }

/-- A group `acme` holding `widgets`, with no template of its own. -/
def acme : RepositoryGroup :=
  { Owner := "acme", Provider := "https://github.com", ProviderKind := "github",
    ProviderName := "github", JenkinsFolderTemplate := "", JenkinsJobTemplate := "",
    Repositories := [widgets] }

/-- A repository `gadgets` with a job template of its own. -/
def gadgets : Repository :=
  { Name := "gadgets", URL := "https://github.com/acme/gadgets",
    HTTPCloneURL := "https://github.com/acme/gadgets.git", JenkinsJobTemplate := "gadgets.gotmpl" }

/-- A group `tools` holding `gadgets`, with a folder template of its own. -/
def tools : RepositoryGroup :=
  { Owner := "tools", Provider := "https://github.com", ProviderKind := "github",
    ProviderName := "github", JenkinsFolderTemplate := "tools.gotmpl", JenkinsJobTemplate := "",
    Repositories := [gadgets] }

/-- A group `empty` without repositories, with a folder template of its own. -/
def emptyGroup : RepositoryGroup :=
  { Owner := "empty", Provider := "https://github.com", ProviderKind := "github",
    ProviderName := "github", JenkinsFolderTemplate := "missing.gotmpl",
    JenkinsJobTemplate := "", Repositories := [] }

/-- A source config with the server `jx` holding the groups `acme`, `empty` and `tools`, with
the server-level templates `folder.gotmpl` and `job.gotmpl`. -/
def threeGroupConfig : SourceConfig :=
  { Spec :=
    { JenkinsServers :=
        [{ Server := "jx", FolderTemplate := "folder.gotmpl", JobTemplate := "job.gotmpl",
           Groups := [acme, emptyGroup, tools] }],
      JenkinsFolderTemplate := "", JenkinsJobTemplate := "" } }

/-- A source config with the server `jx`, which holds `acme` and names the templates given. -/
def configWith (folderTemplate jobTemplate : String) : SourceConfig :=
  { Spec :=
    { JenkinsServers :=
        [{ Server := "jx", FolderTemplate := folderTemplate, JobTemplate := jobTemplate,
           Groups := [acme] }],
      JenkinsFolderTemplate := "", JenkinsJobTemplate := "" } }

/-- The source config without any server. -/
def emptyConfig : SourceConfig :=
  { Spec := { JenkinsServers := [], JenkinsFolderTemplate := "", JenkinsJobTemplate := "" } }

/-- An environment in which exactly the listed files exist, the configuration file loads as
`config`, every existing file reads as `"name: "` followed by its path, the normaliser
leaves a repository as it is, a template renders to its own text, no output operation fails
and a map is ranged over in the order of its entries. -/
def envWith (files : List String) (config : SourceConfig) : Env :=
  { fileExists := fun p => Except.ok (decide (p ∈ files)),
    readFile := fun p => if p ∈ files then Except.ok ("name: " ++ p) else Except.error "no such file",
    loadFile := fun _ _ => Except.ok config,
    defaultValues := fun _ _ repo => Except.ok repo,
    evaluate := fun _ text _ _ => Except.ok text,
    mkdirAll := fun _ => none,
    jenkinsAddRun := fun _ _ _ => none,
    writeFile := fun _ _ => none,
    rangeOrder := fun m => m,
    rangeOrder_perm := fun m => List.Perm.refl m }

/-- The environment `envWith files config` in which every template renders to `output`. -/
def renderingEnv (files : List String) (config : SourceConfig) (output : String) : Env :=
  { envWith files config with evaluate := fun _ _ _ _ => Except.ok output }

/-- The environment `envWith files config` in which the existence check of the path `path`
fails with an I/O error. -/
def faultyEnv (files : List String) (config : SourceConfig) (path : String) : Env :=
  { envWith files config with
    fileExists := fun p =>
      if p = path then Except.error "permission denied" else Except.ok (decide (p ∈ files)) }

/-- The options the command builds from its flags: working directory `dir`, the given
default template, everything else at its zero value. -/
def flagOptions (dir defaultTemplate : String) : Options :=
  { Dir := dir, ConfigFile := "", OutDir := "", DefaultTemplate := defaultTemplate,
    NoCreateHelmfile := false, SourceConfig := emptyConfig, JenkinsServerTemplates := none }

/-! # Theorems

## Splitting and joining -/

theorem stringsJoin_data (ls : List String) (sep : String) :
    (stringsJoin ls sep).data = joinChars (ls.map String.data) sep.data := by
  induction ls with
  | nil => rfl
  | cons a rest ih =>
    cases rest with
    | nil => rfl
    | cons b rest =>
      simp only [stringsJoin, List.map_cons, joinChars, String.data_append]
      simp only [List.map_cons] at ih
      rw [ih]

theorem splitChars_ne_nil (sep : Char) (s : List Char) : splitChars sep s ≠ [] := by
  cases s with
  | nil => simp [splitChars]
  | cons c cs =>
    simp only [splitChars]
    split
    · simp
    · split <;> simp

theorem splitChars_of_not_mem (sep : Char) (a : List Char) (h : sep ∉ a) :
    splitChars sep a = [a] := by
  induction a with
  | nil => rfl
  | cons c cs ih =>
    simp only [List.mem_cons, not_or] at h
    have hc : c ≠ sep := fun e => h.1 e.symm
    simp [splitChars, hc, ih h.2]

theorem splitChars_append_sep (sep : Char) (a b : List Char) (h : sep ∉ a) :
    splitChars sep (a ++ sep :: b) = a :: splitChars sep b := by
  induction a with
  | nil => simp [splitChars]
  | cons c cs ih =>
    simp only [List.mem_cons, not_or] at h
    have hc : c ≠ sep := fun e => h.1 e.symm
    simp [splitChars, hc, ih h.2]

theorem not_mem_of_mem_splitChars (sep : Char) (s l : List Char) (h : l ∈ splitChars sep s) :
    sep ∉ l := by
  induction s generalizing l with
  | nil =>
    simp only [splitChars, List.mem_singleton] at h
    subst h; simp
  | cons c cs ih =>
    simp only [splitChars] at h
    split at h
    · rcases List.mem_cons.1 h with h | h
      · subst h; simp
      · exact ih l h
    · rename_i hc
      split at h
      · rename_i heq
        exact absurd heq (splitChars_ne_nil sep cs)
      · rename_i l0 ls heq
        have hl0 : sep ∉ l0 := ih l0 (by rw [heq]; simp)
        rcases List.mem_cons.1 h with h | h
        · subst h
          simp only [List.mem_cons, not_or]
          exact ⟨fun e => hc e.symm, hl0⟩
        · exact ih l (by rw [heq]; simp [h])

theorem joinChars_splitChars (sep : Char) (s : List Char) :
    joinChars (splitChars sep s) [sep] = s := by
  induction s with
  | nil => rfl
  | cons c cs ih =>
    simp only [splitChars]
    split
    · rename_i hc
      subst hc
      rcases hs : splitChars c cs with _ | ⟨l0, ls⟩
      · exact absurd hs (splitChars_ne_nil c cs)
      · rw [hs] at ih
        simp [joinChars, ih]
    · rcases hs : splitChars sep cs with _ | ⟨l0, ls⟩
      · exact absurd hs (splitChars_ne_nil sep cs)
      · rw [hs] at ih
        cases ls with
        | nil => simpa [joinChars] using ih
        | cons l1 ls => simp only [joinChars, List.cons_append] at ih ⊢; rw [ih]

theorem splitChars_indented (sep : Char) (ind : List Char) (hind : sep ∉ ind)
    (ls : List (List Char)) (hne : ls ≠ []) (hls : ∀ l ∈ ls, sep ∉ l) :
    splitChars sep (ind ++ joinChars ls (sep :: ind)) = ls.map (fun l => ind ++ l) := by
  induction ls with
  | nil => exact absurd rfl hne
  | cons a rest ih =>
    have ha : sep ∉ a := hls a (by simp)
    cases rest with
    | nil =>
      simp only [joinChars, List.map_cons, List.map_nil]
      apply splitChars_of_not_mem
      simp [hind, ha]
    | cons b rest =>
      have h1 : ind ++ joinChars (a :: b :: rest) (sep :: ind)
          = (ind ++ a) ++ sep :: (ind ++ joinChars (b :: rest) (sep :: ind)) := by
        simp [joinChars]
      rw [h1, splitChars_append_sep sep _ _ (by simp [hind, ha]),
        ih (by simp) (fun l hl => hls l (by simp [List.mem_cons] at hl ⊢; tauto))]
      simp

theorem joinChars_indented (ind : List Char) (ls : List (List Char)) (hne : ls ≠ []) :
    ind ++ joinChars ls ('\n' :: ind) = joinChars (ls.map (fun l => ind ++ l)) ['\n'] := by
  induction ls with
  | nil => exact absurd rfl hne
  | cons a rest ih =>
    cases rest with
    | nil => simp [joinChars]
    | cons b rest =>
      have := ih (by simp)
      simp only [joinChars, List.map_cons] at this ⊢
      rw [← this]; simp

theorem indentText_data (text ind : String) :
    (indentText text ind).data
      = ind.data ++ joinChars (splitChars '\n' text.data) ('\n' :: ind.data) := by
  simp only [indentText, stringsSplit, String.data_append, stringsJoin_data, List.map_map]
  have : (String.data ∘ String.mk) = id := by funext l; rfl
  rw [this]; simp


theorem stripIndent_append (ind l : String) : stripIndent ind (ind ++ l) = l := by
  have h : ind.data.isPrefixOf (ind ++ l).data = true := by
    rw [List.isPrefixOf_iff_prefix, String.data_append]
    exact List.prefix_append _ _
  simp [stripIndent, h]

theorem stringsSplit_indentText (text ind : String) (h : '\n' ∉ ind.data) :
    stringsSplit (indentText text ind) '\n'
      = (stringsSplit text '\n').map (fun l => ind ++ l) := by
  simp only [stringsSplit, indentText_data, List.map_map]
  rw [splitChars_indented '\n' ind.data h _ (splitChars_ne_nil _ _)
    (fun l hl => not_mem_of_mem_splitChars _ _ l hl)]
  simp only [List.map_map]
  apply List.map_congr_left
  intro l _
  apply String.ext
  simp

theorem stringsJoin_stringsSplit (text : String) :
    stringsJoin (stringsSplit text '\n') "\n" = text := by
  apply String.ext
  rw [stringsJoin_data]
  simp only [stringsSplit, List.map_map]
  have : (String.data ∘ String.mk) = id := by funext l; rfl
  rw [this, List.map_id]
  exact joinChars_splitChars '\n' text.data

theorem indentText_eq_join (text ind : String) :
    indentText text ind
      = stringsJoin ((stringsSplit text '\n').map (fun l => ind ++ l)) "\n" := by
  apply String.ext
  rw [indentText_data, stringsJoin_data, joinChars_indented _ _ (splitChars_ne_nil _ _)]
  simp only [stringsSplit, List.map_map]
  congr 1

theorem splitChars_append (sep : Char) (a b : List Char) :
    splitChars sep (a ++ sep :: b) = splitChars sep a ++ splitChars sep b := by
  induction a with
  | nil => simp [splitChars]
  | cons c cs ih =>
    simp only [List.cons_append, splitChars]
    split
    · simp [ih]
    · rcases hs : splitChars sep cs with _ | ⟨l0, ls⟩
      · exact absurd hs (splitChars_ne_nil _ _)
      · have e : cs.append (sep :: b) = cs ++ sep :: b := rfl
        rw [e, ih, hs]; simp

theorem stringsSplit_getLast (text : String) :
    (stringsSplit (text ++ "\n") '\n').getLast? = some "" := by
  have h : (text ++ "\n").data = text.data ++ '\n' :: [] := by simp [String.data_append]
  simp only [stringsSplit, h, splitChars_append, List.map_append]
  simp [splitChars]

/-! ## C1: `firstNonBlankValue` -/

theorem firstNonBlankValue_eq_empty_iff (values : List String) :
    firstNonBlankValue values = "" ↔ ∀ v ∈ values, v = "" := by
  induction values with
  | nil => simp [firstNonBlankValue]
  | cons v rest ih =>
    by_cases hv : v = ""
    · simp [firstNonBlankValue, hv, ih]
    · simp [firstNonBlankValue, hv]

theorem firstNonBlankValue_append (pre : List String) (v : String) (post : List String)
    (hpre : ∀ x ∈ pre, x = "") (hv : v ≠ "") :
    firstNonBlankValue (pre ++ v :: post) = v := by
  induction pre with
  | nil => simp [firstNonBlankValue, hv]
  | cons x rest ih =>
    have hx : x = "" := hpre x (by simp)
    simp only [List.cons_append, firstNonBlankValue, hx, ne_eq, not_true_eq_false, ite_false]
    exact ih (fun y hy => hpre y (by simp [hy]))

/-- C1: `firstNonBlankValue` returns the first element that is not the empty string (every
element before it being empty), it returns the empty string exactly when every element is
empty (the empty list included), and on the four-level chain `repo, group, server, global`
it returns `repo` if that is non-empty, else `group` if non-empty, else `server` if
non-empty, else `global`. -/
theorem firstNonBlankValue_spec :
    (∀ (pre : List String) (v : String) (post : List String),
        (∀ x ∈ pre, x = "") → v ≠ "" → firstNonBlankValue (pre ++ v :: post) = v) ∧
    (∀ values : List String, firstNonBlankValue values = "" ↔ ∀ v ∈ values, v = "") ∧
    firstNonBlankValue [] = "" ∧
    (∀ repo group server glob : String,
        firstNonBlankValue [repo, group, server, glob]
          = if repo ≠ "" then repo else if group ≠ "" then group
            else if server ≠ "" then server else glob) := by
  refine ⟨firstNonBlankValue_append, firstNonBlankValue_eq_empty_iff, rfl, ?_⟩
  intro repo group server glob
  by_cases h1 : repo = "" <;> by_cases h2 : group = "" <;> by_cases h3 : server = "" <;>
    by_cases h4 : glob = "" <;> simp [firstNonBlankValue, h1, h2, h3, h4]

/-! ## C10: `indentText` -/

/-- C10 (amended): for every text and every indent string, `indentText text indent` is the
newline-join of the newline-separated lines of `text` each prefixed with `indent`, and
`indentText` of the empty text is `indent`; when `indent` holds no newline, the result has
the lines of `text` each prefixed with `indent` (so as many lines as `text`, each starting
with `indent`), removing the indent from each line gives back `text`, and a text ending in
a newline yields a last line that is `indent` alone. -/
theorem indentText_spec (text indent : String) :
    indentText text indent
      = stringsJoin ((stringsSplit text '\n').map (fun l => indent ++ l)) "\n" ∧
    indentText "" indent = indent ∧
    ('\n' ∉ indent.data →
      stringsSplit (indentText text indent) '\n'
        = (stringsSplit text '\n').map (fun l => indent ++ l) ∧
      (stringsSplit (indentText text indent) '\n').length = (stringsSplit text '\n').length ∧
      (∀ l ∈ stringsSplit (indentText text indent) '\n', ∃ r, l = indent ++ r) ∧
      stringsJoin ((stringsSplit (indentText text indent) '\n').map (stripIndent indent)) "\n"
        = text ∧
      (stringsSplit (indentText (text ++ "\n") indent) '\n').getLast? = some indent) := by
  refine ⟨indentText_eq_join text indent, ?_, fun h => ?_⟩
  · apply String.ext
    simp [indentText, stringsSplit, splitChars, stringsJoin]
  · have hs := stringsSplit_indentText text indent h
    refine ⟨hs, by rw [hs, List.length_map], ?_, ?_, ?_⟩
    · intro l hl
      rw [hs, List.mem_map] at hl
      obtain ⟨r, _, hr⟩ := hl
      exact ⟨r, hr.symm⟩
    · rw [hs, List.map_map]
      have : (stripIndent indent ∘ fun l => indent ++ l) = id := by
        funext l; exact stripIndent_append indent l
      rw [this, List.map_id]
      exact stringsJoin_stringsSplit text
    · rw [stringsSplit_indentText _ indent h, List.getLast?_map, stringsSplit_getLast]
      simp

/-- Witness of `indentText_spec` at the package's own indent and a two-line text that ends
in a newline. -/
theorem indentText_spec_witness :
    indent.length = 14 ∧
    stringsSplit (indentText "name: acme\n" indent) '\n'
      = ["              name: acme", "              "] ∧
    stringsJoin ((stringsSplit (indentText "name: acme\n" indent) '\n').map (stripIndent indent))
      "\n" = "name: acme\n" := by
  have h := (indentText_spec "name: acme\n" indent).2.2 (by decide)
  refine ⟨by decide, ?_, h.2.2.2.1⟩
  rw [h.1]
  decide

/-- C10 (counterexample): with the indent `"\n"` the one-line text `"a"` is indented to a
text of two lines, the second of which does not start with the indent. -/
theorem indentText_counterexample :
    (stringsSplit (indentText "a" "\n") '\n').length ≠ (stringsSplit "a" '\n').length ∧
    stringsSplit (indentText "a" "\n") '\n' = ["", "a"] := by
  decide

/-! ## The server map -/

theorem mapGet_mapSet_same (m : ServerTemplates) (k : String) (v : List JenkinsTemplateConfig) :
    mapGet (mapSet m k v) k = v := by
  induction m with
  | nil => simp [mapSet, mapGet]
  | cons e rest ih =>
    obtain ⟨k', v'⟩ := e
    by_cases h : k' = k
    · simp [mapSet, mapGet, h]
    · simp [mapSet, mapGet, h, ih]

theorem mapGet_mapSet_other (m : ServerTemplates) (k s : String) (v : List JenkinsTemplateConfig)
    (hs : s ≠ k) : mapGet (mapSet m k v) s = mapGet m s := by
  induction m with
  | nil => simp [mapSet, mapGet, Ne.symm hs]
  | cons e rest ih =>
    obtain ⟨k', v'⟩ := e
    by_cases h : k' = k
    · subst h
      simp [mapSet, mapGet, Ne.symm hs]
    · by_cases h2 : k' = s
      · subst h2
        simp [mapSet, mapGet, h]
      · simp [mapSet, mapGet, h, h2, ih]

/-! ## C4: entities without a server or without a template are skipped -/

/-- C4: when the server name is empty or the resolved template path is empty,
`processJenkinsJobConfigForGroup` and `processJenkinsJobConfigForRepository` return no
error and leave the receiver, hence `JenkinsServerTemplates`, unchanged, whatever the file
system holds. -/
theorem skipped_without_server_or_template (env : Env) (o : Options) (group : RepositoryGroup)
    (repo : Repository) (server jobTemplatePath : String)
    (h : server = "" ∨ jobTemplatePath = "") :
    processJenkinsJobConfigForGroup env o group server jobTemplatePath = (o, Status.ok) ∧
    processJenkinsJobConfigForRepository env o group repo server jobTemplatePath
      = (o, Status.ok) := by
  rcases h with h | h
  · simp [processJenkinsJobConfigForGroup, processJenkinsJobConfigForRepository, h]
  · simp [processJenkinsJobConfigForGroup, processJenkinsJobConfigForRepository, h]

/-- Witness of `skipped_without_server_or_template`: a group and a repository with the
server `jx` and no template, in a directory where template files exist. -/
theorem skipped_without_server_or_template_witness :
    processJenkinsJobConfigForGroup (envWith ["dir/folder.gotmpl"] emptyConfig)
        (flagOptions "dir" "") acme "jx" "" = (flagOptions "dir" "", Status.ok) ∧
    processJenkinsJobConfigForRepository (envWith ["dir/folder.gotmpl"] emptyConfig)
        (flagOptions "dir" "") acme widgets "jx" "" = (flagOptions "dir" "", Status.ok) :=
  skipped_without_server_or_template _ _ acme widgets "jx" "" (Or.inr rfl)

/-! ## C7: the request queued for a repository -/

/-- C7: for a group with owner `o`, a repository with name `r`, a non-empty server `s` and
a non-empty template path whose file exists and is read, on a receiver whose map has been
made, `processJenkinsJobConfigForRepository` returns no error, appends exactly one request
to the sequence of `s` and changes no other sequence; the request has `Server = s`,
`Key = o/r`, the joined path and the text of the file, and a data dictionary with exactly
the ten keys `ID, FullName, Owner, GitServerURL, GitKind, GitName, Repository, URL,
CloneURL, Server`, where `ID = o-r`, `FullName = o/r` (the key), `Owner = o`,
`Repository = r` and `Server = s`. -/
theorem processJenkinsJobConfigForRepository_queues (env : Env) (o : Options)
    (m : ServerTemplates) (group : RepositoryGroup) (repo : Repository)
    (server jobTemplatePath text : String)
    (hserver : server ≠ "") (hpath : jobTemplatePath ≠ "")
    (hexists : env.fileExists (filepathJoin [o.Dir, jobTemplatePath]) = Except.ok true)
    (hread : env.readFile (filepathJoin [o.Dir, jobTemplatePath]) = Except.ok text)
    (hmap : o.JenkinsServerTemplates = some m) :
    ∃ (m1 : ServerTemplates) (req : JenkinsTemplateConfig),
      processJenkinsJobConfigForRepository env o group repo server jobTemplatePath
        = ({ o with JenkinsServerTemplates := some m1 }, Status.ok) ∧
      mapGet m1 server = mapGet m server ++ [req] ∧
      (∀ s, s ≠ server → mapGet m1 s = mapGet m s) ∧
      req.Server = server ∧
      req.Key = group.Owner ++ "/" ++ repo.Name ∧
      req.TemplateFile = filepathJoin [o.Dir, jobTemplatePath] ∧
      req.TemplateText = text ∧
      req.TemplateData.map Prod.fst
        = ["ID", "FullName", "Owner", "GitServerURL", "GitKind", "GitName", "Repository",
           "URL", "CloneURL", "Server"] ∧
      req.TemplateData.lookup "ID" = some (group.Owner ++ "-" ++ repo.Name) ∧
      req.TemplateData.lookup "FullName" = some req.Key ∧
      req.TemplateData.lookup "Owner" = some group.Owner ∧
      req.TemplateData.lookup "Repository" = some repo.Name ∧
      req.TemplateData.lookup "Server" = some server := by
  simp only [processJenkinsJobConfigForRepository, hserver, hpath, if_false,
    processJenkinsServerJobTemplate, hexists, hread, hmap]
  refine ⟨_, _, rfl, mapGet_mapSet_same _ _ _, fun s hs => mapGet_mapSet_other _ _ _ _ hs,
    rfl, rfl, rfl, rfl, rfl, ?_⟩
  refine ⟨?_, ?_, ?_, ?_, ?_⟩ <;> simp [List.lookup, scmJoin]

/-- Witness of `processJenkinsJobConfigForRepository_queues`: the repository
`acme/widgets` on the server `jx` with the template `job.gotmpl`. -/
theorem processJenkinsJobConfigForRepository_queues_witness :
    ∃ (m1 : ServerTemplates) (req : JenkinsTemplateConfig),
      processJenkinsJobConfigForRepository (envWith ["dir/job.gotmpl"] emptyConfig)
          { flagOptions "dir" "" with JenkinsServerTemplates := some [] } acme widgets "jx"
          "job.gotmpl"
        = ({ flagOptions "dir" "" with JenkinsServerTemplates := some m1 }, Status.ok) ∧
      mapGet m1 "jx" = [req] ∧ req.Key = "acme/widgets" ∧
      req.TemplateData.lookup "FullName" = some "acme/widgets" := by
  obtain ⟨m1, req, h1, h2, -, -, h5, -, -, -, -, h10, -⟩ :=
    processJenkinsJobConfigForRepository_queues (envWith ["dir/job.gotmpl"] emptyConfig)
      { flagOptions "dir" "" with JenkinsServerTemplates := some [] } [] acme widgets "jx"
      "job.gotmpl" "name: dir/job.gotmpl" (by decide) (by decide) rfl rfl rfl
  exact ⟨m1, req, h1, h2, h5, by rw [h10, h5]; rfl⟩

/-! ## C6: discovery of the default templates -/

theorem folderPath_local :
    filepathJoin [localJenkinsfilePath, "folder.gotmpl"] = "jenkins/templates/folder.gotmpl" := by
  decide

theorem jobPath_local :
    filepathJoin [localJenkinsfilePath, "job.gotmpl"] = "jenkins/templates/job.gotmpl" := by
  decide

theorem folderPath_versionStream :
    filepathJoin [filepathJoin ["versionStream", localJenkinsfilePath], "folder.gotmpl"]
      = "versionStream/jenkins/templates/folder.gotmpl" := by
  decide

theorem jobPath_versionStream :
    filepathJoin [filepathJoin ["versionStream", localJenkinsfilePath], "job.gotmpl"]
      = "versionStream/jenkins/templates/job.gotmpl" := by
  decide

/-- C6: template discovery in `Run`, when the existence checks it makes raise no I/O error
(`exists p` is their answer for the path `p`): it returns no error; for `X = folder` and
for `X = job` alike, a global template path that is non-empty stays as it is, and an empty
one becomes `jenkins/templates/X.gotmpl` when that file exists under the working directory,
else `versionStream/jenkins/templates/X.gotmpl` when that file exists, else stays empty;
nothing else of the receiver changes. -/
theorem discoverTemplates_spec (env : Env) (o : Options) (present : String → Bool)
    (hchecks : ∀ p ∈ [filepathJoin [o.Dir, "jenkins/templates/folder.gotmpl"],
        filepathJoin [o.Dir, "jenkins/templates/job.gotmpl"],
        filepathJoin [o.Dir, "versionStream/jenkins/templates/folder.gotmpl"],
        filepathJoin [o.Dir, "versionStream/jenkins/templates/job.gotmpl"]],
      env.fileExists p = Except.ok (present p)) :
    discoverTemplates env o =
      (setJobTemplate
        (setFolderTemplate o
          (if o.SourceConfig.Spec.JenkinsFolderTemplate ≠ "" then
            o.SourceConfig.Spec.JenkinsFolderTemplate
          else if present (filepathJoin [o.Dir, "jenkins/templates/folder.gotmpl"]) then
            "jenkins/templates/folder.gotmpl"
          else if present (filepathJoin [o.Dir, "versionStream/jenkins/templates/folder.gotmpl"])
          then "versionStream/jenkins/templates/folder.gotmpl"
          else ""))
        (if o.SourceConfig.Spec.JenkinsJobTemplate ≠ "" then
          o.SourceConfig.Spec.JenkinsJobTemplate
        else if present (filepathJoin [o.Dir, "jenkins/templates/job.gotmpl"]) then
          "jenkins/templates/job.gotmpl"
        else if present (filepathJoin [o.Dir, "versionStream/jenkins/templates/job.gotmpl"])
        then "versionStream/jenkins/templates/job.gotmpl"
        else ""),
      Status.ok) := by
  have h1 := hchecks _ (List.mem_cons_self _ _)
  have h2 := hchecks _ (List.mem_cons_of_mem _ (List.mem_cons_self _ _))
  have h3 := hchecks _ (List.mem_cons_of_mem _ (List.mem_cons_of_mem _ (List.mem_cons_self _ _)))
  have h4 := hchecks _ (List.mem_cons_of_mem _ (List.mem_cons_of_mem _
    (List.mem_cons_of_mem _ (List.mem_cons_self _ _))))
  have n1 : ("jenkins/templates/folder.gotmpl" : String) ≠ "" := by decide
  have n2 : ("jenkins/templates/job.gotmpl" : String) ≠ "" := by decide
  obtain ⟨dir, cf, od, dt, nch, ⟨⟨servers, ft, jt⟩⟩, jst⟩ := o
  simp only at h1 h2 h3 h4
  by_cases hf : ft = "" <;> by_cases hj : jt = "" <;>
    cases e1 : present (filepathJoin [dir, "jenkins/templates/folder.gotmpl"]) <;>
    cases e2 : present (filepathJoin [dir, "jenkins/templates/job.gotmpl"]) <;>
    cases e3 : present (filepathJoin [dir, "versionStream/jenkins/templates/folder.gotmpl"]) <;>
    cases e4 : present (filepathJoin [dir, "versionStream/jenkins/templates/job.gotmpl"]) <;>
    simp [discoverTemplates, forEach, discoverBody, discoverFolder, discoverJob,
      setFolderTemplate, setJobTemplate, folderPath_local, jobPath_local,
      folderPath_versionStream, jobPath_versionStream, h1, h2, h3, h4, e1, e2, e3, e4, hf, hj,
      n1, n2]

/-- Witness of `discoverTemplates_spec`: both folder templates exist, so the one under
`jenkins/templates` wins; only the `versionStream` job template exists, so it is taken. -/
theorem discoverTemplates_spec_witness :
    (discoverTemplates
        (envWith ["dir/jenkins/templates/folder.gotmpl",
          "dir/versionStream/jenkins/templates/folder.gotmpl",
          "dir/versionStream/jenkins/templates/job.gotmpl"] emptyConfig)
        (flagOptions "dir" "")).1.SourceConfig.Spec
      = { JenkinsServers := [], JenkinsFolderTemplate := "jenkins/templates/folder.gotmpl",
          JenkinsJobTemplate := "versionStream/jenkins/templates/job.gotmpl" } := by
  rw [discoverTemplates_spec
    (envWith ["dir/jenkins/templates/folder.gotmpl",
      "dir/versionStream/jenkins/templates/folder.gotmpl",
      "dir/versionStream/jenkins/templates/job.gotmpl"] emptyConfig)
    (flagOptions "dir" "")
    (fun p => decide (p ∈ ["dir/jenkins/templates/folder.gotmpl",
      "dir/versionStream/jenkins/templates/folder.gotmpl",
      "dir/versionStream/jenkins/templates/job.gotmpl"]))
    (fun _ _ => rfl)]
  decide

/-! ## C9: the option `DefaultTemplate` -/

/-- C9 (the code at the failing input): the configuration file and the default template
`default.gotmpl` exist, the repository `acme/widgets` has the server `jx` and no job template
at any level; `Run` returns no error, queues nothing for the repository and writes no file:
`DefaultTemplate` is checked by `Validate` and never used. -/
theorem defaultTemplate_unused :
    Run (envWith ["dir/.jx/gitops/source-config.yaml", "default.gotmpl"] (configWith "" ""))
        (flagOptions "dir" "default.gotmpl")
      = { options :=
            { Dir := "dir", ConfigFile := "dir/.jx/gitops/source-config.yaml",
              OutDir := "dir/helmfiles", DefaultTemplate := "default.gotmpl",
              NoCreateHelmfile := false, SourceConfig := configWith "" "",
              JenkinsServerTemplates := some [] },
          written := [], status := Status.ok } := by
  decide

set_option maxRecDepth 20000

/-! ## C8: a missing configuration file -/

theorem Validate_missing (env : Env) (o : Options)
    (hmissing : env.fileExists (resolvedConfigFile o) = Except.ok false) :
    Validate env o
      = ({ o with ConfigFile := resolvedConfigFile o, OutDir := resolvedOutDir o }, Status.ok) := by
  unfold resolvedConfigFile at hmissing
  by_cases h1 : o.ConfigFile = "" <;> by_cases h2 : o.OutDir = "" <;>
    simp only [h1, if_true, if_false] at hmissing <;>
    simp [Validate, resolvedConfigFile, resolvedOutDir, h1, h2, hmissing]

theorem collect_no_servers (env : Env) (o : Options)
    (h : o.SourceConfig.Spec.JenkinsServers = []) : collect env o = (o, Status.ok) := by
  simp [collect, h, forEach]

/-- C8 (amended): when the source-config file does not exist, the receiver's `SourceConfig`
lists no Jenkins server and its `JenkinsServerTemplates` is nil or empty (as for the options
the command builds from its flags), and the existence checks of template discovery raise no
I/O error, `Run` returns no error, does not panic, queues no request and writes no file. -/
theorem Run_missing_config (env : Env) (o : Options) (present : String → Bool)
    (hmissing : env.fileExists (resolvedConfigFile o) = Except.ok false)
    (hservers : o.SourceConfig.Spec.JenkinsServers = [])
    (htemplates : o.JenkinsServerTemplates = none ∨ o.JenkinsServerTemplates = some [])
    (hchecks : ∀ p ∈ [filepathJoin [o.Dir, "jenkins/templates/folder.gotmpl"],
        filepathJoin [o.Dir, "jenkins/templates/job.gotmpl"],
        filepathJoin [o.Dir, "versionStream/jenkins/templates/folder.gotmpl"],
        filepathJoin [o.Dir, "versionStream/jenkins/templates/job.gotmpl"]],
      env.fileExists p = Except.ok (present p)) :
    (Run env o).status = Status.ok ∧ (Run env o).written = [] ∧
    (Run env o).options.JenkinsServerTemplates = o.JenkinsServerTemplates := by
  obtain ⟨a, b, hd⟩ : ∃ a b, discoverTemplates env
      { o with ConfigFile := resolvedConfigFile o, OutDir := resolvedOutDir o }
      = (setJobTemplate (setFolderTemplate
          { o with ConfigFile := resolvedConfigFile o, OutDir := resolvedOutDir o } a) b,
        Status.ok) :=
    ⟨_, _, discoverTemplates_spec env
      { o with ConfigFile := resolvedConfigFile o, OutDir := resolvedOutDir o } present hchecks⟩
  have hc := collect_no_servers env (setJobTemplate (setFolderTemplate
      { o with ConfigFile := resolvedConfigFile o, OutDir := resolvedOutDir o } a) b) hservers
  have hr : env.rangeOrder [] = [] := List.Perm.eq_nil (env.rangeOrder_perm [])
  simp only [Run, Validate_missing env o hmissing, hd, hc]
  rcases htemplates with h | h <;>
    simp [writeOutputs, setJobTemplate, setFolderTemplate, h, hr, forEach]

/-- Witness of `Run_missing_config`: the options built from the flags in a directory
without a configuration file. -/
theorem Run_missing_config_witness :
    (Run (envWith ["dir/jenkins/templates/job.gotmpl"] emptyConfig) (flagOptions "dir" "")).status
      = Status.ok ∧
    (Run (envWith ["dir/jenkins/templates/job.gotmpl"] emptyConfig) (flagOptions "dir" "")).written
      = [] ∧
    (Run (envWith ["dir/jenkins/templates/job.gotmpl"] emptyConfig)
      (flagOptions "dir" "")).options.JenkinsServerTemplates = none :=
  Run_missing_config (envWith ["dir/jenkins/templates/job.gotmpl"] emptyConfig)
    (flagOptions "dir" "") (fun p => decide (p ∈ ["dir/jenkins/templates/job.gotmpl"]))
    rfl rfl (Or.inl rfl) (fun _ _ => rfl)

/-- C8 (counterexample): no configuration file exists, yet a receiver that already holds a
source config with the repository `acme/widgets` and an empty map gets a request queued and
a values file written; with the nil map the same receiver panics; a receiver that already
holds a map entry gets a values file written; and the options built from the flags get an
error when an existence check of template discovery fails. -/
theorem Run_missing_config_counterexample :
    (envWith ["dir/job.gotmpl"] emptyConfig).fileExists
        (resolvedConfigFile (flagOptions "dir" "")) = Except.ok false ∧
    (Run (envWith ["dir/job.gotmpl"] emptyConfig)
        { flagOptions "dir" "" with
          SourceConfig := configWith "" "job.gotmpl",
          JenkinsServerTemplates := some [] }).written.map Prod.fst
      = ["dir/helmfiles/jx/job-values.yaml"] ∧
    (Run (envWith ["dir/job.gotmpl"] emptyConfig)
        { flagOptions "dir" "" with SourceConfig := configWith "" "job.gotmpl" }).status
      = Status.panicked "assignment to entry in nil map" ∧
    (Run (envWith ["dir/job.gotmpl"] emptyConfig)
        { flagOptions "dir" "" with JenkinsServerTemplates := some [("jx", [])] }).written
      = [("dir/helmfiles/jx/job-values.yaml", jobValuesHeader)] ∧
    (faultyEnv [] emptyConfig "dir/jenkins/templates/folder.gotmpl").fileExists
        (resolvedConfigFile (flagOptions "dir" "")) = Except.ok false ∧
    (Run (faultyEnv [] emptyConfig "dir/jenkins/templates/folder.gotmpl")
        (flagOptions "dir" "")).status
      = Status.err ("failed to check if path exists dir/jenkins/templates/folder.gotmpl: "
          ++ "permission denied") := by
  refine ⟨rfl, ?_, ?_, ?_, rfl, ?_⟩ <;> decide

/-! ## C5: the content of the values files -/

theorem renderConfigs_ok (env : Env) (server : String) (configs : List JenkinsTemplateConfig)
    (buf text : String) (h : renderConfigs env server configs buf = Except.ok text) :
    (∀ c ∈ configs, renders env server c) ∧
    text = buf ++ concatAll (configs.map (fun jcfg =>
      indent ++ "// from template: " ++ jcfg.TemplateFile ++ "\n"
        ++ indentText (rendered env server jcfg) indent ++ indent ++ "\n")) := by
  induction configs generalizing buf with
  | nil =>
    simp only [renderConfigs, Except.ok.injEq] at h
    subst h
    simp [concatAll]
  | cons c rest ih =>
    simp only [renderConfigs] at h
    split at h
    · exact absurd h (by simp)
    · rename_i output he
      obtain ⟨h1, h2⟩ := ih _ h
      refine ⟨?_, ?_⟩
      · intro c' hc'
        rcases List.mem_cons.1 hc' with e | e
        · subst e; exact ⟨output, he⟩
        · exact h1 c' e
      · rw [h2]
        simp only [List.map_cons, concatAll, rendered, he, fragment, String.append_assoc]

theorem writeServer_ok (env : Env) (o : Options) (e : String × List JenkinsTemplateConfig)
    (acc acc1 : List (String × String)) (h : writeServer env o e acc = (acc1, Status.ok)) :
    acc1 = acc ++ [valuesFile env o.OutDir e] ∧ ∀ c ∈ e.2, renders env e.1 c := by
  simp only [writeServer] at h
  split at h
  · simp at h
  · split at h
    · simp at h
    · split at h
      · simp at h
      · rename_i buf hbuf
        split at h
        · simp at h
        · obtain ⟨h1, h2⟩ := renderConfigs_ok env e.1 e.2 _ buf hbuf
          simp only [Prod.mk.injEq, and_true] at h
          exact ⟨by rw [← h, h2]; rfl, h1⟩

theorem writeServer_not_ok (env : Env) (o : Options) (e : String × List JenkinsTemplateConfig)
    (acc : List (String × String)) (h : (writeServer env o e acc).2 ≠ Status.ok) :
    (writeServer env o e acc).1 = acc := by
  revert h
  simp only [writeServer]
  split
  · simp
  · split
    · simp
    · split
      · simp
      · split <;> simp

theorem forEach_writeServer (env : Env) (o : Options) (l : ServerTemplates)
    (acc : List (String × String)) :
    ∃ n, (forEach (writeServer env o) l acc).1 = acc ++ (l.take n).map (valuesFile env o.OutDir) ∧
      (∀ e ∈ l.take n, ∀ c ∈ e.2, renders env e.1 c) ∧
      ((forEach (writeServer env o) l acc).2 = Status.ok → n = l.length) := by
  induction l generalizing acc with
  | nil => exact ⟨0, by simp [forEach]⟩
  | cons e rest ih =>
    rcases hw : writeServer env o e acc with ⟨acc1, st⟩
    by_cases hst : st = Status.ok
    · subst hst
      obtain ⟨h1, h2⟩ := writeServer_ok env o e acc acc1 hw
      obtain ⟨n, hn1, hn2, hn3⟩ := ih acc1
      refine ⟨n + 1, ?_, ?_, ?_⟩
      · subst h1
        simp only [forEach, hw, hn1, List.take_succ_cons, List.map_cons, List.append_assoc,
          List.singleton_append]
      · intro e' he'
        rw [List.take_succ_cons] at he'
        rcases List.mem_cons.1 he' with h | h
        · subst h; exact h2
        · exact hn2 e' h
      · intro hok
        simp only [forEach, hw] at hok
        simp [hn3 hok]
    · have hacc : acc1 = acc := by
        have := writeServer_not_ok env o e acc (by rw [hw]; exact hst)
        rw [hw] at this; exact this
      refine ⟨0, ?_, by simp, ?_⟩
      · cases st with
        | ok => exact absurd rfl hst
        | err msg => simp [forEach, hw, hacc]
        | panicked msg => simp [forEach, hw, hacc]
      · intro hok
        cases st with
        | ok => exact absurd rfl hst
        | err msg => simp [forEach, hw] at hok
        | panicked msg => simp [forEach, hw] at hok

theorem writeServer_status (env : Env) (o : Options) (e : String × List JenkinsTemplateConfig)
    (acc : List (String × String)) :
    (writeServer env o e acc).2 = (writeServer env o e []).2 := by
  simp only [writeServer]
  split
  · rfl
  · split
    · rfl
    · split
      · rfl
      · split <;> rfl

theorem forEach_writeServer_ok_iff (env : Env) (o : Options) (l : ServerTemplates)
    (acc : List (String × String)) :
    (forEach (writeServer env o) l acc).2 = Status.ok
      ↔ ∀ e ∈ l, (writeServer env o e []).2 = Status.ok := by
  induction l generalizing acc with
  | nil => simp [forEach]
  | cons e rest ih =>
    have hs := writeServer_status env o e acc
    rcases hw : writeServer env o e acc with ⟨acc1, st⟩
    rw [hw] at hs
    simp only at hs
    cases st with
    | ok => simp [forEach, hw, ih acc1, ← hs]
    | err msg => simp [forEach, hw, ← hs]
    | panicked msg => simp [forEach, hw, ← hs]

theorem renderConfigs_order (env : Env) (order : ServerTemplates → ServerTemplates)
    (horder : ∀ m, (order m).Perm m) (server : String) (configs : List JenkinsTemplateConfig)
    (buf : String) :
    renderConfigs { env with rangeOrder := order, rangeOrder_perm := horder } server configs buf
      = renderConfigs env server configs buf := by
  induction configs generalizing buf with
  | nil => rfl
  | cons c rest ih => simp only [renderConfigs, ih]

theorem writeServer_order (env : Env) (order : ServerTemplates → ServerTemplates)
    (horder : ∀ m, (order m).Perm m) (o : Options) :
    writeServer { env with rangeOrder := order, rangeOrder_perm := horder } o
      = writeServer env o := by
  funext e acc
  simp only [writeServer, verifyServerHelmfileExists, renderConfigs_order]

theorem Run_cases (env : Env) (o : Options) :
    ((Run env o).written = [] ∧ (Run env o).status ≠ Status.ok) ∨
    ∃ o1 o2 o3, Validate env o = (o1, Status.ok) ∧ discoverTemplates env o1 = (o2, Status.ok) ∧
      collect env o2 = (o3, Status.ok) ∧
      Run env o = { options := o3, written := (writeOutputs env o3).1,
                    status := (writeOutputs env o3).2 } := by
  rcases hv : Validate env o with ⟨o1, st1⟩
  cases st1 with
  | err msg => left; simp [Run, hv]
  | panicked msg => left; simp [Run, hv]
  | ok =>
    rcases hd : discoverTemplates env o1 with ⟨o2, st2⟩
    cases st2 with
    | err msg => left; simp [Run, hv, hd]
    | panicked msg => left; simp [Run, hv, hd]
    | ok =>
      rcases hc : collect env o2 with ⟨o3, st3⟩
      cases st3 with
      | err msg => left; simp [Run, hv, hd, hc]
      | panicked msg => left; simp [Run, hv, hd, hc]
      | ok => right; exact ⟨o1, o2, o3, rfl, hd, hc, by simp [Run, hv, hd, hc]⟩

/-- C5: every values file `Run` writes is the file of one entry of the server map, at
`<OutDir>/<server>/job-values.yaml`, all requests of that server render, and its text is
the fixed header followed, for each queued request of that server in queue order, by the
comment line (indent, `// from template: `, the template file path, newline), the indented
rendered text, and the indent with a newline; when `Run` returns no error the files written
are those of all entries, in the order the map is ranged over; and with any other order of
ranging over the map `Run` again returns no error, leaves the same receiver and writes the
same files with the same content, up to the order of writing. -/
theorem Run_values_files (env : Env) (o : Options) :
    (∀ w ∈ (Run env o).written, ∃ m, (Run env o).options.JenkinsServerTemplates = some m ∧
      ∃ e ∈ m, (∀ c ∈ e.2, renders env e.1 c) ∧
        w = (filepathJoin [filepathJoin [(Run env o).options.OutDir, e.1], "job-values.yaml"],
          jobValuesHeader ++ concatAll (e.2.map (fun jcfg =>
            indent ++ "// from template: " ++ jcfg.TemplateFile ++ "\n"
              ++ indentText (rendered env e.1 jcfg) indent ++ indent ++ "\n")))) ∧
    ((Run env o).status = Status.ok → ∀ m, (Run env o).options.JenkinsServerTemplates = some m →
      (Run env o).written = (env.rangeOrder m).map (valuesFile env (Run env o).options.OutDir)) ∧
    (∀ (order : ServerTemplates → ServerTemplates) (horder : ∀ m, (order m).Perm m),
      (Run env o).status = Status.ok →
      (Run { env with rangeOrder := order, rangeOrder_perm := horder } o).status = Status.ok ∧
      (Run { env with rangeOrder := order, rangeOrder_perm := horder } o).options
        = (Run env o).options ∧
      (Run { env with rangeOrder := order, rangeOrder_perm := horder } o).written.Perm
        (Run env o).written) := by
  rcases Run_cases env o with ⟨hw, hst⟩ | ⟨o1, o2, o3, hv, hd, hc, hrun⟩
  · refine ⟨by simp [hw], fun h => absurd h hst, fun _ _ h => absurd h hst⟩
  · have hrun2 : ∀ (order : ServerTemplates → ServerTemplates)
        (horder : ∀ m, (order m).Perm m),
        Run { env with rangeOrder := order, rangeOrder_perm := horder } o
          = { options := o3,
              written := (writeOutputs { env with rangeOrder := order, rangeOrder_perm := horder }
                o3).1,
              status := (writeOutputs { env with rangeOrder := order, rangeOrder_perm := horder }
                o3).2 } := by
      intro order horder
      have hv2 : Validate { env with rangeOrder := order, rangeOrder_perm := horder } o
          = (o1, Status.ok) := hv
      have hd2 : discoverTemplates { env with rangeOrder := order, rangeOrder_perm := horder } o1
          = (o2, Status.ok) := hd
      have hc2 : collect { env with rangeOrder := order, rangeOrder_perm := horder } o2
          = (o3, Status.ok) := hc
      simp [Run, hv2, hd2, hc2]
    rw [hrun]
    simp only
    cases hm : o3.JenkinsServerTemplates with
    | none =>
      refine ⟨by simp [writeOutputs, hm], by simp, ?_⟩
      intro order horder _
      rw [hrun2 order horder]
      simp [writeOutputs, hm]
    | some m =>
      obtain ⟨n, hn1, hn2, hn3⟩ := forEach_writeServer env o3 (env.rangeOrder m) []
      refine ⟨?_, ?_, ?_⟩
      · intro w hw
        simp only [writeOutputs, hm, hn1, List.nil_append, List.mem_map] at hw
        obtain ⟨e, he, rfl⟩ := hw
        refine ⟨m, rfl, e, ?_, hn2 e he, rfl⟩
        exact (env.rangeOrder_perm m).subset (List.mem_of_mem_take he)
      · intro hok m' hm'
        simp only [Option.some.injEq] at hm'
        subst hm'
        simp only [writeOutputs, hm] at hok ⊢
        rw [hn1, hn3 hok, List.take_length, List.nil_append]
      · intro order horder hok
        rw [hrun2 order horder]
        simp only [writeOutputs, hm] at hok ⊢
        have hall := (forEach_writeServer_ok_iff env o3 _ []).1 hok
        have hall2 : ∀ e ∈ order m, (writeServer env o3 e []).2 = Status.ok := fun e he =>
          hall e ((env.rangeOrder_perm m).symm.subset ((horder m).subset he))
        have hok2 : (forEach (writeServer env o3) (order m) []).2 = Status.ok :=
          (forEach_writeServer_ok_iff env o3 (order m) []).2 hall2
        obtain ⟨n2, hm1, -, hm3⟩ := forEach_writeServer env o3 (order m) []
        rw [writeServer_order]
        refine ⟨hok2, trivial, ?_⟩
        have e1 : (forEach (writeServer env o3) (order m) []).1
            = (order m).map (valuesFile env o3.OutDir) := by
          have := hm3 hok2
          rw [this, List.take_length, List.nil_append] at hm1
          exact hm1
        rw [e1, hn1, hn3 hok, List.take_length, List.nil_append]
        exact ((horder m).trans (env.rangeOrder_perm m).symm).map _

/-- Witness of `Run_values_files`: the group `acme` on the server `jx` with a folder
template that renders to `name: acme`; the file `dir/helmfiles/jx/job-values.yaml` is the
header, the comment naming the template path, the indented rendered text and the indented
blank line, in that order. -/
theorem Run_values_files_witness :
    (Run (renderingEnv ["dir/.jx/gitops/source-config.yaml", "dir/folder.gotmpl"]
          (configWith "folder.gotmpl" "") "name: acme")
        (flagOptions "dir" "")).written
      = [("dir/helmfiles/jx/job-values.yaml",
          jobValuesHeader ++ "              // from template: dir/folder.gotmpl\n"
            ++ "              name: acme" ++ "              \n")] := by
  have h := (Run_values_files
    (renderingEnv ["dir/.jx/gitops/source-config.yaml", "dir/folder.gotmpl"]
      (configWith "folder.gotmpl" "") "name: acme")
    (flagOptions "dir" "")).2.1 (by decide) _ rfl
  rw [h]
  decide

/-! ## The collection phase -/

theorem forEach_cons_ok {α σ : Type} (body : α → σ → σ × Status) (x : α) (xs : List α)
    (s s1 : σ) (h : forEach body (x :: xs) s = (s1, Status.ok)) :
    ∃ s0, body x s = (s0, Status.ok) ∧ forEach body xs s0 = (s1, Status.ok) := by
  rcases hb : body x s with ⟨s0, st⟩
  cases st with
  | ok => exact ⟨s0, rfl, by simpa [forEach, hb] using h⟩
  | err msg => simp [forEach, hb] at h
  | panicked msg => simp [forEach, hb] at h

theorem forEach_append {α σ : Type} (body : α → σ → σ × Status) (xs ys : List α) (s s1 : σ)
    (h : forEach body xs s = (s1, Status.ok)) :
    forEach body (xs ++ ys) s = forEach body ys s1 := by
  induction xs generalizing s with
  | nil =>
    simp only [forEach, Prod.mk.injEq, and_true] at h
    subst h; rfl
  | cons x xs ih =>
    obtain ⟨s0, hb, hrest⟩ := forEach_cons_ok body x xs s s1 h
    simp only [List.cons_append, forEach, hb]
    exact ih s0 hrest

theorem forEach_cons_not_ok {α σ : Type} (body : α → σ → σ × Status) (x : α) (xs : List α)
    (s s1 : σ) (st : Status) (hb : body x s = (s1, st)) (hst : st ≠ Status.ok) :
    forEach body (x :: xs) s = (s1, st) := by
  cases st with
  | ok => exact absurd rfl hst
  | err msg => simp [forEach, hb]
  | panicked msg => simp [forEach, hb]

theorem withTemplates_self (o : Options) (m : ServerTemplates)
    (h : o.JenkinsServerTemplates = some m) : withTemplates o m = o := by
  cases o; simp only [withTemplates] at *; simp [h]

theorem withServers_self (o : Options) : withServers o o.SourceConfig.Spec.JenkinsServers = o := by
  rfl

theorem processJenkinsServerJobTemplate_ok (env : Env) (o o1 : Options) (m : ServerTemplates)
    (server key path : String) (data : List (String × String))
    (hm : o.JenkinsServerTemplates = some m)
    (h : processJenkinsServerJobTemplate env o server key path data = (o1, Status.ok)) :
    o1 = withTemplates o (mapSet m server (mapGet m server ++
      [{ Server := server, Key := key, TemplateFile := filepathJoin [o.Dir, path],
         TemplateText := textOf env (filepathJoin [o.Dir, path]), TemplateData := data }])) := by
  simp only [processJenkinsServerJobTemplate] at h
  split at h
  · simp at h
  · simp at h
  · split at h
    · simp at h
    · rename_i text hread
      simp only [hm, Prod.mk.injEq, and_true] at h
      rw [← h]
      simp [withTemplates, textOf, hread]

theorem appended_refl (m : ServerTemplates) (name : String) : Appended m m name [] := by
  intro s; simp

theorem appended_trans {m m1 m2 : ServerTemplates} {name : String}
    {a b : List JenkinsTemplateConfig} (h1 : Appended m m1 name a) (h2 : Appended m1 m2 name b) :
    Appended m m2 name (a ++ b) := by
  intro s
  rw [h2 s, h1 s]
  by_cases h : s = name <;> simp [h]

theorem appended_mapSet (m : ServerTemplates) (name : String) (req : JenkinsTemplateConfig) :
    Appended m (mapSet m name (mapGet m name ++ [req])) name [req] := by
  intro s
  by_cases h : s = name
  · subst h; simp [mapGet_mapSet_same]
  · simp [h, mapGet_mapSet_other _ _ _ _ h]

theorem groupAt_eq (o : Options) (i j : Nat) (server : JenkinsServer)
    (hs : serverAt o i = some server) : groupAt o i j = server.Groups[j]? := by
  simp [groupAt, hs]

theorem folderStep_ok (env : Env) (i : Nat) (name : String) (j : Nat) (o o1 : Options)
    (m : ServerTemplates) (server : JenkinsServer) (g : RepositoryGroup)
    (hs : serverAt o i = some server) (hname : server.Server = name)
    (hg : server.Groups[j]? = some g) (hm : o.JenkinsServerTemplates = some m)
    (h : folderStep env i name j o = (o1, Status.ok)) :
    ∃ m1, o1 = withTemplates o m1 ∧
      Appended m m1 name
        (folderRequest env o.Dir o.SourceConfig.Spec.JenkinsFolderTemplate server g).toList := by
  have hga : groupAt o i j = some g := by rw [groupAt_eq o i j server hs, hg]
  simp only [folderStep, hs, hga] at h
  by_cases hlen : g.Repositories.length > 0
  · simp only [hlen, if_true] at h
    by_cases hn : name = ""
    · simp only [processJenkinsJobConfigForGroup, hn, if_true, Prod.mk.injEq, and_true] at h
      refine ⟨m, by rw [← h, withTemplates_self o m hm], ?_⟩
      simp only [folderRequest, hname, hn]
      simpa using appended_refl m ""
    · by_cases ht : firstNonBlankValue [g.JenkinsFolderTemplate, server.FolderTemplate,
          o.SourceConfig.Spec.JenkinsFolderTemplate] = ""
      · simp only [processJenkinsJobConfigForGroup, hn, ht, if_true, if_false, Prod.mk.injEq,
          and_true] at h
        refine ⟨m, by rw [← h, withTemplates_self o m hm], ?_⟩
        simp only [folderRequest, ht]
        simpa using appended_refl m name
      · simp only [processJenkinsJobConfigForGroup, hn, ht, if_false] at h
        split at h
        · simp at h
        · rename_i r hr
          rcases hp : processJenkinsServerJobTemplate env o name g.Owner
              (firstNonBlankValue [g.JenkinsFolderTemplate, server.FolderTemplate,
                o.SourceConfig.Spec.JenkinsFolderTemplate])
              [("ID", g.Owner), ("GitServerURL", g.Provider), ("GitKind", g.ProviderKind),
               ("GitName", g.ProviderName), ("Server", name)] with ⟨o2, st⟩
          rw [hp] at h
          simp only [Prod.mk.injEq] at h
          obtain ⟨h1, h2⟩ := h
          subst h1 h2
          have := processJenkinsServerJobTemplate_ok env o o2 m _ _ _ _ hm hp
          refine ⟨_, this, ?_⟩
          simp only [folderRequest, hlen, hname, hn, ht, ne_eq, not_false_eq_true, and_self,
            if_true, Option.toList_some]
          exact appended_mapSet m name _
  · simp only [hlen, if_false, Prod.mk.injEq, and_true] at h
    refine ⟨m, by rw [← h, withTemplates_self o m hm], ?_⟩
    simp only [folderRequest, hlen, false_and, if_false]
    simpa using appended_refl m name

theorem lt_of_getElem?_eq_some {α : Type} (l : List α) (i : Nat) (a : α) (h : l[i]? = some a) :
    i < l.length := by
  obtain ⟨hlt, _⟩ := List.getElem?_eq_some.1 h
  exact hlt

theorem setRepo_eq (o : Options) (i j k : Nat) (repo : Repository) (server : JenkinsServer)
    (g : RepositoryGroup) (hs : serverAt o i = some server) (hg : server.Groups[j]? = some g) :
    setRepo o i j k repo
      = withServers o (o.SourceConfig.Spec.JenkinsServers.set i
          (withGroups server (server.Groups.set j (withRepos g (g.Repositories.set k repo))))) := by
  simp [setRepo, hs, hg, withServers, withGroups, withRepos]

theorem serverAt_withServers (o : Options) (servers : List JenkinsServer) (i : Nat) :
    serverAt (withServers o servers) i = servers[i]? := rfl

theorem processJenkinsJobConfigForRepository_ok (env : Env) (o o1 : Options)
    (m : ServerTemplates) (g : RepositoryGroup) (r : Repository) (name template : String)
    (hm : o.JenkinsServerTemplates = some m)
    (h : processJenkinsJobConfigForRepository env o g r name template = (o1, Status.ok)) :
    ∃ m1, o1 = withTemplates o m1 ∧
      Appended m m1 name
        (if name ≠ "" ∧ template ≠ "" then
          [{ Server := name, Key := g.Owner ++ "/" ++ r.Name,
             TemplateFile := filepathJoin [o.Dir, template],
             TemplateText := textOf env (filepathJoin [o.Dir, template]),
             TemplateData :=
              [("ID", g.Owner ++ "-" ++ r.Name), ("FullName", g.Owner ++ "/" ++ r.Name),
               ("Owner", g.Owner), ("GitServerURL", g.Provider), ("GitKind", g.ProviderKind),
               ("GitName", g.ProviderName), ("Repository", r.Name), ("URL", r.URL),
               ("CloneURL", r.HTTPCloneURL), ("Server", name)] }]
        else []) := by
  by_cases hn : name = ""
  · simp only [processJenkinsJobConfigForRepository, hn, if_true, Prod.mk.injEq, and_true] at h
    refine ⟨m, by rw [← h, withTemplates_self o m hm], ?_⟩
    simpa [hn] using appended_refl m ""
  · by_cases ht : template = ""
    · simp only [processJenkinsJobConfigForRepository, hn, ht, if_true, if_false, Prod.mk.injEq,
        and_true] at h
      refine ⟨m, by rw [← h, withTemplates_self o m hm], ?_⟩
      simpa [ht] using appended_refl m name
    · simp only [processJenkinsJobConfigForRepository, hn, ht, if_false, scmJoin] at h
      refine ⟨_, processJenkinsServerJobTemplate_ok env o o1 m _ _ _ _ hm h, ?_⟩
      simp only [hn, ht, ne_eq, not_false_eq_true, and_self, if_true]
      exact appended_mapSet m name _

theorem repoStep_ok (env : Env) (i : Nat) (name : String) (j k : Nat) (o o1 : Options)
    (m : ServerTemplates) (server : JenkinsServer) (g : RepositoryGroup) (r0 : Repository)
    (hs : serverAt o i = some server) (hname : server.Server = name)
    (hg : server.Groups[j]? = some g) (hr : g.Repositories[k]? = some r0)
    (hm : o.JenkinsServerTemplates = some m)
    (h : repoStep env i name j k o = (o1, Status.ok)) :
    ∃ r m1,
      o1 = withTemplates (withServers o (o.SourceConfig.Spec.JenkinsServers.set i
          (withGroups server (server.Groups.set j (withRepos g (g.Repositories.set k r)))))) m1 ∧
      Appended m m1 name
        (jobRequest env o.Dir o.SourceConfig.Spec.JenkinsJobTemplate server g r).toList := by
  have hga : groupAt o i j = some g := by rw [groupAt_eq o i j server hs, hg]
  have hi : i < o.SourceConfig.Spec.JenkinsServers.length := lt_of_getElem?_eq_some _ _ _ hs
  have hj : j < server.Groups.length := lt_of_getElem?_eq_some _ _ _ hg
  simp only [repoStep, hga, hr] at h
  rcases hdv : env.defaultValues o.SourceConfig g r0 with e | r
  · simp [hdv] at h
  · simp only [hdv, setRepo_eq o i j k r server g hs hg] at h
    refine ⟨r, ?_⟩
    obtain ⟨g1, hg1e⟩ : ∃ g1, g1 = withRepos g (g.Repositories.set k r) := ⟨_, rfl⟩
    rw [← hg1e] at h ⊢
    obtain ⟨s1, hs1e⟩ : ∃ s1, s1 = withGroups server (server.Groups.set j g1) := ⟨_, rfl⟩
    rw [← hs1e] at h ⊢
    obtain ⟨ow, howe⟩ : ∃ ow, ow = withServers o (o.SourceConfig.Spec.JenkinsServers.set i s1) :=
      ⟨_, rfl⟩
    rw [← howe] at h ⊢
    have hs1 : serverAt ow i = some s1 := by
      rw [howe, serverAt_withServers, List.getElem?_set_self hi]
    have hg1 : groupAt ow i j = some g1 := by
      rw [groupAt_eq _ i j _ hs1, hs1e]
      exact List.getElem?_set_self hj
    have hmw : ow.JenkinsServerTemplates = some m := by rw [howe]; exact hm
    have hdir : ow.Dir = o.Dir := by rw [howe]; rfl
    have hjt : ow.SourceConfig.Spec.JenkinsJobTemplate = o.SourceConfig.Spec.JenkinsJobTemplate := by
      rw [howe]; rfl
    simp only [hs1, hg1] at h
    split at h
    · simp at h
    · rename_i res hres
      rcases hp : processJenkinsJobConfigForRepository env ow g1 r name
          (firstNonBlankValue [r.JenkinsJobTemplate, g1.JenkinsJobTemplate, s1.JobTemplate,
            ow.SourceConfig.Spec.JenkinsJobTemplate]) with ⟨o2, st⟩
      rw [hp] at h
      simp only [Prod.mk.injEq] at h
      obtain ⟨h1, h2⟩ := h
      subst h1 h2
      obtain ⟨m1, hm1, happ⟩ :=
        processJenkinsJobConfigForRepository_ok env ow o2 m g1 r name _ hmw hp
      refine ⟨m1, hm1, ?_⟩
      have e : (jobRequest env o.Dir o.SourceConfig.Spec.JenkinsJobTemplate server g r).toList
          = (if name ≠ "" ∧ firstNonBlankValue [r.JenkinsJobTemplate, g1.JenkinsJobTemplate,
              s1.JobTemplate, ow.SourceConfig.Spec.JenkinsJobTemplate] ≠ "" then
            [{ Server := name, Key := g1.Owner ++ "/" ++ r.Name,
               TemplateFile := filepathJoin [ow.Dir, firstNonBlankValue [r.JenkinsJobTemplate,
                g1.JenkinsJobTemplate, s1.JobTemplate, ow.SourceConfig.Spec.JenkinsJobTemplate]],
               TemplateText := textOf env (filepathJoin [ow.Dir,
                firstNonBlankValue [r.JenkinsJobTemplate,
                g1.JenkinsJobTemplate, s1.JobTemplate, ow.SourceConfig.Spec.JenkinsJobTemplate]]),
               TemplateData :=
                [("ID", g1.Owner ++ "-" ++ r.Name), ("FullName", g1.Owner ++ "/" ++ r.Name),
                 ("Owner", g1.Owner), ("GitServerURL", g1.Provider),
                 ("GitKind", g1.ProviderKind), ("GitName", g1.ProviderName),
                 ("Repository", r.Name), ("URL", r.URL), ("CloneURL", r.HTTPCloneURL),
                 ("Server", name)] }]
          else []) := by
        rw [hdir, hjt, hs1e, hg1e]
        simp only [jobRequest, hname, withGroups, withRepos]
        split <;> rfl
      rw [e]
      exact happ

theorem set_eq_self {α : Type} (l : List α) (i : Nat) (a : α) (h : l[i]? = some a) :
    l.set i a = l := by
  induction l generalizing i with
  | nil => rfl
  | cons x xs ih =>
    cases i with
    | zero => simp at h; simp [h]
    | succ n => simp at h; simp [ih n h]

theorem withRepos_self (g : RepositoryGroup) : withRepos g g.Repositories = g := rfl

theorem withGroups_self (server : JenkinsServer) : withGroups server server.Groups = server := rfl

theorem withRepos_withRepos (g : RepositoryGroup) (a b : List Repository) :
    withRepos (withRepos g a) b = withRepos g b := rfl

theorem withGroups_withGroups (server : JenkinsServer) (a b : List RepositoryGroup) :
    withGroups (withGroups server a) b = withGroups server b := rfl

theorem withServers_withTemplates_withServers (o : Options) (a b : List JenkinsServer)
    (m : ServerTemplates) :
    withServers (withTemplates (withServers o a) m) b = withTemplates (withServers o b) m := rfl

theorem withTemplates_withTemplates (o : Options) (a b : ServerTemplates) :
    withTemplates (withTemplates o a) b = withTemplates o b := rfl

theorem jobRequest_congr (env : Env) (dir gj : String) (server : JenkinsServer)
    (g : RepositoryGroup) (groups : List RepositoryGroup) (repos : List Repository) :
    jobRequest env dir gj (withGroups server groups) (withRepos g repos)
      = jobRequest env dir gj server g := rfl

theorem filterMap_cons_toList {α β : Type} (f : α → Option β) (a : α) (l : List α) :
    (a :: l).filterMap f = (f a).toList ++ l.filterMap f := by
  cases h : f a <;> simp [List.filterMap_cons, h]

theorem repoLoop_ok (env : Env) (i : Nat) (name : String) (j : Nat) (todo : List Repository) :
    ∀ (done : List Repository) (o o1 : Options) (m : ServerTemplates) (server : JenkinsServer)
      (g : RepositoryGroup),
      serverAt o i = some server → server.Server = name → server.Groups[j]? = some g →
      g.Repositories = done ++ todo → o.JenkinsServerTemplates = some m →
      forEach (repoStep env i name j) (List.range' done.length todo.length) o = (o1, Status.ok) →
      ∃ todo1 m1, todo1.length = todo.length ∧
        o1 = withTemplates (withServers o (o.SourceConfig.Spec.JenkinsServers.set i
          (withGroups server (server.Groups.set j (withRepos g (done ++ todo1)))))) m1 ∧
        Appended m m1 name (todo1.filterMap
          (jobRequest env o.Dir o.SourceConfig.Spec.JenkinsJobTemplate server g)) := by
  induction todo with
  | nil =>
    intro done o o1 m server g hs _ hg hrepos hm h
    simp only [List.length_nil, List.range'_zero, forEach, Prod.mk.injEq, and_true] at h
    subst h
    refine ⟨[], m, rfl, ?_, by simpa using appended_refl m name⟩
    rw [← hrepos, withRepos_self, set_eq_self _ _ _ hg, withGroups_self,
      set_eq_self _ _ _ hs, withServers_self, withTemplates_self o m hm]
  | cons t rest ih =>
    intro done o o1 m server g hs hname hg hrepos hm h
    rw [List.length_cons, List.range'_succ] at h
    obtain ⟨o0, hstep, hrest⟩ := forEach_cons_ok _ _ _ _ _ h
    have hr : g.Repositories[done.length]? = some t := by
      rw [hrepos, List.getElem?_append_right (le_refl _)]; simp
    obtain ⟨r, m0, ho0, happ0⟩ :=
      repoStep_ok env i name j done.length o o0 m server g t hs hname hg hr hm hstep
    have hset : g.Repositories.set done.length r = (done ++ [r]) ++ rest := by
      rw [hrepos]; simp
    rw [hset] at ho0
    have hi : i < o.SourceConfig.Spec.JenkinsServers.length := lt_of_getElem?_eq_some _ _ _ hs
    have hj : j < server.Groups.length := lt_of_getElem?_eq_some _ _ _ hg
    have hs0 : serverAt o0 i = some (withGroups server (server.Groups.set j
        (withRepos g ((done ++ [r]) ++ rest)))) := by
      rw [ho0]
      exact List.getElem?_set_self hi
    have hlen : (done ++ [r]).length = done.length + 1 := by simp
    rw [← hlen] at hrest
    obtain ⟨todo1, m1, hl1, ho1, happ1⟩ := ih (done ++ [r]) o0 o1 m0 _ (withRepos g ((done ++ [r]) ++ rest))
      hs0 hname (List.getElem?_set_self hj) rfl (by rw [ho0]; rfl) hrest
    refine ⟨r :: todo1, m1, by simp [hl1], ?_, ?_⟩
    · rw [ho1, ho0]
      simp only [withServers, withTemplates, withGroups, withRepos, List.set_set,
        List.append_assoc, List.singleton_append]
    · rw [filterMap_cons_toList]
      refine appended_trans happ0 ?_
      rw [ho0] at happ1
      exact happ1

theorem groupJobRequests_congr (env : Env) (dir gj : String) (server : JenkinsServer)
    (groups : List RepositoryGroup) :
    groupJobRequests env dir gj (withGroups server groups) = groupJobRequests env dir gj server :=
  rfl

theorem groupReposStep_ok (env : Env) (i : Nat) (name : String) (j : Nat) (o o1 : Options)
    (m : ServerTemplates) (server : JenkinsServer) (g : RepositoryGroup)
    (hs : serverAt o i = some server) (hname : server.Server = name)
    (hg : server.Groups[j]? = some g) (hm : o.JenkinsServerTemplates = some m)
    (h : groupReposStep env i name j o = (o1, Status.ok)) :
    ∃ g1 m1, Normalised g g1 ∧
      o1 = withTemplates (withServers o (o.SourceConfig.Spec.JenkinsServers.set i
        (withGroups server (server.Groups.set j g1)))) m1 ∧
      Appended m m1 name
        (groupJobRequests env o.Dir o.SourceConfig.Spec.JenkinsJobTemplate server g1) := by
  have hga : groupAt o i j = some g := by rw [groupAt_eq o i j server hs, hg]
  simp only [groupReposStep, hga, List.range_eq_range'] at h
  obtain ⟨repos1, m1, hl, ho1, happ⟩ :=
    repoLoop_ok env i name j g.Repositories [] o o1 m server g hs hname hg rfl hm h
  rw [List.nil_append] at ho1
  exact ⟨withRepos g repos1, m1, ⟨repos1, hl, rfl⟩, ho1, happ⟩

theorem groupsLoop_ok (env : Env) (i : Nat) (name : String) (gtodo : List RepositoryGroup) :
    ∀ (gdone : List RepositoryGroup) (o o1 : Options) (m : ServerTemplates)
      (server : JenkinsServer),
      serverAt o i = some server → server.Server = name → server.Groups = gdone ++ gtodo →
      o.JenkinsServerTemplates = some m →
      forEach (groupReposStep env i name) (List.range' gdone.length gtodo.length) o
        = (o1, Status.ok) →
      ∃ gtodo1 m1, List.Forall₂ Normalised gtodo gtodo1 ∧
        o1 = withTemplates (withServers o (o.SourceConfig.Spec.JenkinsServers.set i
          (withGroups server (gdone ++ gtodo1)))) m1 ∧
        Appended m m1 name ((gtodo1.map
          (groupJobRequests env o.Dir o.SourceConfig.Spec.JenkinsJobTemplate server)).flatten) := by
  induction gtodo with
  | nil =>
    intro gdone o o1 m server hs _ hgroups hm h
    simp only [List.length_nil, List.range'_zero, forEach, Prod.mk.injEq, and_true] at h
    subst h
    refine ⟨[], m, List.Forall₂.nil, ?_, by simpa using appended_refl m name⟩
    rw [← hgroups, withGroups_self, set_eq_self _ _ _ hs, withServers_self,
      withTemplates_self o m hm]
  | cons g rest ih =>
    intro gdone o o1 m server hs hname hgroups hm h
    rw [List.length_cons, List.range'_succ] at h
    obtain ⟨o0, hstep, hrest⟩ := forEach_cons_ok _ _ _ _ _ h
    have hg : server.Groups[gdone.length]? = some g := by
      rw [hgroups, List.getElem?_append_right (le_refl _)]; simp
    obtain ⟨g1, m0, hnorm, ho0, happ0⟩ :=
      groupReposStep_ok env i name gdone.length o o0 m server g hs hname hg hm hstep
    have hset : server.Groups.set gdone.length g1 = (gdone ++ [g1]) ++ rest := by
      rw [hgroups]; simp
    rw [hset] at ho0
    have hi : i < o.SourceConfig.Spec.JenkinsServers.length := lt_of_getElem?_eq_some _ _ _ hs
    have hs0 : serverAt o0 i = some (withGroups server ((gdone ++ [g1]) ++ rest)) := by
      rw [ho0]
      exact List.getElem?_set_self hi
    have hlen : (gdone ++ [g1]).length = gdone.length + 1 := by simp
    rw [← hlen] at hrest
    obtain ⟨gtodo1, m1, hf, ho1, happ1⟩ := ih (gdone ++ [g1]) o0 o1 m0 _
      hs0 hname rfl (by rw [ho0]; rfl) hrest
    refine ⟨g1 :: gtodo1, m1, List.Forall₂.cons hnorm hf, ?_, ?_⟩
    · rw [ho1, ho0]
      simp only [withServers, withTemplates, withGroups, List.set_set,
        List.append_assoc, List.singleton_append]
    · rw [List.map_cons, List.flatten_cons]
      refine appended_trans happ0 ?_
      rw [ho0] at happ1
      exact happ1

theorem folderLoop_ok (env : Env) (i : Nat) (name : String) (gtodo : List RepositoryGroup) :
    ∀ (gdone : List RepositoryGroup) (o o1 : Options) (m : ServerTemplates)
      (server : JenkinsServer),
      serverAt o i = some server → server.Server = name → server.Groups = gdone ++ gtodo →
      o.JenkinsServerTemplates = some m →
      forEach (folderStep env i name) (List.range' gdone.length gtodo.length) o
        = (o1, Status.ok) →
      ∃ m1, o1 = withTemplates o m1 ∧
        Appended m m1 name (gtodo.filterMap
          (folderRequest env o.Dir o.SourceConfig.Spec.JenkinsFolderTemplate server)) := by
  induction gtodo with
  | nil =>
    intro gdone o o1 m server _ _ _ hm h
    simp only [List.length_nil, List.range'_zero, forEach, Prod.mk.injEq, and_true] at h
    subst h
    exact ⟨m, (withTemplates_self o m hm).symm, by simpa using appended_refl m name⟩
  | cons g rest ih =>
    intro gdone o o1 m server hs hname hgroups hm h
    rw [List.length_cons, List.range'_succ] at h
    obtain ⟨o0, hstep, hrest⟩ := forEach_cons_ok _ _ _ _ _ h
    have hg : server.Groups[gdone.length]? = some g := by
      rw [hgroups, List.getElem?_append_right (le_refl _)]; simp
    obtain ⟨m0, ho0, happ0⟩ :=
      folderStep_ok env i name gdone.length o o0 m server g hs hname hg hm hstep
    have hlen : (gdone ++ [g]).length = gdone.length + 1 := by simp
    rw [← hlen] at hrest
    obtain ⟨m1, ho1, happ1⟩ := ih (gdone ++ [g]) o0 o1 m0 server
      (by rw [ho0]; exact hs) hname (by rw [hgroups]; simp) (by rw [ho0]; rfl) hrest
    refine ⟨m1, by rw [ho1, ho0]; rfl, ?_⟩
    rw [filterMap_cons_toList]
    refine appended_trans happ0 ?_
    rw [ho0] at happ1
    exact happ1

theorem folderRequest_normalised (env : Env) (dir gf : String) (server : JenkinsServer)
    (groups : List RepositoryGroup) (g g1 : RepositoryGroup) (h : Normalised g g1) :
    folderRequest env dir gf (withGroups server groups) g1 = folderRequest env dir gf server g := by
  obtain ⟨repos1, hl, rfl⟩ := h
  simp only [folderRequest, withGroups, withRepos, hl]

theorem filterMap_folderRequest_normalised (env : Env) (dir gf : String) (server : JenkinsServer)
    (groups gs gs1 : List RepositoryGroup) (h : List.Forall₂ Normalised gs gs1) :
    gs1.filterMap (folderRequest env dir gf (withGroups server groups))
      = gs.filterMap (folderRequest env dir gf server) := by
  induction h with
  | nil => rfl
  | cons hn _ ih =>
    rw [filterMap_cons_toList, filterMap_cons_toList, ih,
      folderRequest_normalised env dir gf server groups _ _ hn]

theorem serverStep_ok (env : Env) (i : Nat) (o o1 : Options) (m : ServerTemplates)
    (server : JenkinsServer) (hs : serverAt o i = some server)
    (hm : o.JenkinsServerTemplates = some m) (h : serverStep env i o = (o1, Status.ok)) :
    ∃ groups1 m1, List.Forall₂ Normalised server.Groups groups1 ∧
      o1 = withTemplates (withServers o (o.SourceConfig.Spec.JenkinsServers.set i
        (withGroups server groups1))) m1 ∧
      Appended m m1 server.Server
        (serverRequests env o.Dir o.SourceConfig.Spec.JenkinsFolderTemplate
          o.SourceConfig.Spec.JenkinsJobTemplate (withGroups server groups1)) := by
  simp only [serverStep, hs, List.range_eq_range'] at h
  rcases hf : forEach (folderStep env i server.Server) (List.range' 0 server.Groups.length) o
    with ⟨o0, st⟩
  rw [hf] at h
  cases st with
  | err msg => simp at h
  | panicked msg => simp at h
  | ok =>
    obtain ⟨m0, ho0, happ0⟩ :=
      folderLoop_ok env i server.Server server.Groups [] o o0 m server hs rfl rfl hm hf
    have hs0 : serverAt o0 i = some server := by rw [ho0]; exact hs
    simp only [hs0] at h
    obtain ⟨groups1, m1, hnorm, ho1, happ1⟩ :=
      groupsLoop_ok env i server.Server server.Groups [] o0 o1 m0 server hs0 rfl rfl
        (by rw [ho0]; rfl) h
    rw [List.nil_append] at ho1
    refine ⟨groups1, m1, hnorm, by rw [ho1, ho0]; rfl, ?_⟩
    have hgs : (withGroups server groups1).Groups = groups1 := rfl
    simp only [serverRequests, hgs]
    rw [filterMap_folderRequest_normalised env _ _ server groups1 _ _ hnorm,
      groupJobRequests_congr]
    refine appended_trans happ0 ?_
    rw [ho0] at happ1
    exact happ1

theorem requestsFor_cons (env : Env) (dir gf gj : String) (server : JenkinsServer)
    (servers : List JenkinsServer) (s : String) :
    requestsFor env dir gf gj (server :: servers) s
      = (if s = server.Server then serverRequests env dir gf gj server else [])
        ++ requestsFor env dir gf gj servers s := by
  by_cases h : s = server.Server
  · subst h
    simp [requestsFor, List.filter_cons]
  · have h2 : ¬ server.Server = s := fun e => h e.symm
    simp [requestsFor, List.filter_cons, h, h2]

theorem serversLoop_ok (env : Env) (stodo : List JenkinsServer) :
    ∀ (sdone : List JenkinsServer) (o o1 : Options) (m : ServerTemplates),
      o.SourceConfig.Spec.JenkinsServers = sdone ++ stodo →
      o.JenkinsServerTemplates = some m →
      forEach (serverStep env) (List.range' sdone.length stodo.length) o = (o1, Status.ok) →
      ∃ stodo1 m1, List.Forall₂ NormalisedServer stodo stodo1 ∧
        o1 = withTemplates (withServers o (sdone ++ stodo1)) m1 ∧
        ∀ s, mapGet m1 s = mapGet m s ++
          requestsFor env o.Dir o.SourceConfig.Spec.JenkinsFolderTemplate
            o.SourceConfig.Spec.JenkinsJobTemplate stodo1 s := by
  induction stodo with
  | nil =>
    intro sdone o o1 m hservers hm h
    simp only [List.length_nil, List.range'_zero, forEach, Prod.mk.injEq, and_true] at h
    subst h
    refine ⟨[], m, List.Forall₂.nil, ?_, by simp [requestsFor]⟩
    rw [List.append_nil] at hservers ⊢
    rw [← hservers, withServers_self, withTemplates_self o m hm]
  | cons server rest ih =>
    intro sdone o o1 m hservers hm h
    rw [List.length_cons, List.range'_succ] at h
    obtain ⟨o0, hstep, hrest⟩ := forEach_cons_ok _ _ _ _ _ h
    have hs : serverAt o sdone.length = some server := by
      simp only [serverAt]
      rw [hservers, List.getElem?_append_right (le_refl _)]; simp
    obtain ⟨groups1, m0, hnorm, ho0, happ0⟩ :=
      serverStep_ok env sdone.length o o0 m server hs hm hstep
    have hset : o.SourceConfig.Spec.JenkinsServers.set sdone.length (withGroups server groups1)
        = (sdone ++ [withGroups server groups1]) ++ rest := by
      rw [hservers]; simp
    rw [hset] at ho0
    have hlen : (sdone ++ [withGroups server groups1]).length = sdone.length + 1 := by simp
    rw [← hlen] at hrest
    obtain ⟨stodo1, m1, hf, ho1, happ1⟩ := ih (sdone ++ [withGroups server groups1]) o0 o1 m0
      (by rw [ho0]; rfl) (by rw [ho0]; rfl) hrest
    refine ⟨withGroups server groups1 :: stodo1, m1,
      List.Forall₂.cons ⟨groups1, hnorm, rfl⟩ hf, ?_, ?_⟩
    · rw [ho1, ho0]
      simp only [withServers, withTemplates, List.append_assoc, List.singleton_append]
    · intro s
      rw [requestsFor_cons, happ1 s, happ0 s, ho0]
      simp only [List.append_assoc]
      rfl

theorem collect_ok (env : Env) (o o1 : Options) (m : ServerTemplates)
    (hm : o.JenkinsServerTemplates = some m) (h : collect env o = (o1, Status.ok)) :
    ∃ servers1 m1, List.Forall₂ NormalisedServer o.SourceConfig.Spec.JenkinsServers servers1 ∧
      o1 = withTemplates (withServers o servers1) m1 ∧
      ∀ s, mapGet m1 s = mapGet m s ++ queuedFor env o1 s := by
  simp only [collect, List.range_eq_range'] at h
  obtain ⟨servers1, m1, hnorm, ho1, happ⟩ :=
    serversLoop_ok env o.SourceConfig.Spec.JenkinsServers [] o o1 m rfl hm h
  rw [List.nil_append] at ho1
  refine ⟨servers1, m1, hnorm, ho1, ?_⟩
  intro s
  rw [happ s, ho1]
  rfl

theorem forEach_rel {α σ : Type} (R : σ → σ → Prop) (hrefl : ∀ s, R s s)
    (htrans : ∀ a b c, R a b → R b c → R a c) (body : α → σ → σ × Status)
    (hbody : ∀ x s, R s (body x s).1) (xs : List α) (s : σ) : R s (forEach body xs s).1 := by
  induction xs generalizing s with
  | nil => exact hrefl s
  | cons x xs ih =>
    have hb := hbody x s
    rcases hx : body x s with ⟨s0, st⟩
    rw [hx] at hb
    cases st with
    | ok => simp only [forEach, hx]; exact htrans _ _ _ hb (ih s0)
    | err msg => simpa only [forEach, hx] using hb
    | panicked msg => simpa only [forEach, hx] using hb

theorem extends_refl (o : Options) : Extends o o := fun _ => ⟨[], by simp⟩

theorem extends_trans (a b c : Options) (h1 : Extends a b) (h2 : Extends b c) : Extends a c := by
  intro s
  obtain ⟨x, hx⟩ := h1 s
  obtain ⟨y, hy⟩ := h2 s
  exact ⟨x ++ y, by rw [hy, hx, List.append_assoc]⟩

theorem processJenkinsServerJobTemplate_extends (env : Env) (o : Options)
    (server key path : String) (data : List (String × String)) :
    Extends o (processJenkinsServerJobTemplate env o server key path data).1 := by
  simp only [processJenkinsServerJobTemplate]
  split
  · exact extends_refl o
  · exact extends_refl o
  · split
    · exact extends_refl o
    · cases hm : o.JenkinsServerTemplates with
      | none => exact extends_refl o
      | some m =>
        intro s
        simp only [sequenceOf, hm]
        by_cases h : s = server
        · subst h
          exact ⟨_, mapGet_mapSet_same _ _ _⟩
        · exact ⟨[], by rw [mapGet_mapSet_other _ _ _ _ h, List.append_nil]⟩

theorem processJenkinsJobConfigForGroup_extends (env : Env) (o : Options)
    (g : RepositoryGroup) (name template : String) :
    Extends o (processJenkinsJobConfigForGroup env o g name template).1 := by
  simp only [processJenkinsJobConfigForGroup]
  split
  · exact extends_refl o
  · split
    · exact extends_refl o
    · exact processJenkinsServerJobTemplate_extends env o name _ _ _

theorem processJenkinsJobConfigForRepository_extends (env : Env) (o : Options)
    (g : RepositoryGroup) (r : Repository) (name template : String) :
    Extends o (processJenkinsJobConfigForRepository env o g r name template).1 := by
  simp only [processJenkinsJobConfigForRepository]
  split
  · exact extends_refl o
  · split
    · exact extends_refl o
    · exact processJenkinsServerJobTemplate_extends env o name _ _ _

theorem folderStep_extends (env : Env) (i : Nat) (name : String) (j : Nat) (o : Options) :
    Extends o (folderStep env i name j o).1 := by
  simp only [folderStep]
  split
  · rename_i server group _ _
    split
    · have := processJenkinsJobConfigForGroup_extends env o group name
        (firstNonBlankValue [group.JenkinsFolderTemplate, server.FolderTemplate,
          o.SourceConfig.Spec.JenkinsFolderTemplate])
      split
      · rename_i heq; rw [heq] at this; exact this
      · exact this
    · exact extends_refl o
  · exact extends_refl o

theorem setRepo_sequenceOf (o : Options) (i j k : Nat) (r : Repository) (s : String) :
    sequenceOf (setRepo o i j k r) s = sequenceOf o s := by
  simp only [setRepo]
  split
  · rfl
  · split <;> rfl

theorem repoStep_extends (env : Env) (i : Nat) (name : String) (j k : Nat) (o : Options) :
    Extends o (repoStep env i name j k o).1 := by
  simp only [repoStep]
  split
  · exact extends_refl o
  · split
    · exact extends_refl o
    · split
      · exact extends_refl o
      · rename_i repo _
        have h0 : Extends o (setRepo o i j k repo) := fun s =>
          ⟨[], by rw [setRepo_sequenceOf, List.append_nil]⟩
        split
        · rename_i server group _ _
          have := processJenkinsJobConfigForRepository_extends env (setRepo o i j k repo) group
            repo name (firstNonBlankValue [repo.JenkinsJobTemplate, group.JenkinsJobTemplate,
              server.JobTemplate, (setRepo o i j k repo).SourceConfig.Spec.JenkinsJobTemplate])
          split
          · rename_i heq; rw [heq] at this; exact extends_trans _ _ _ h0 this
          · exact extends_trans _ _ _ h0 this
        · exact h0

theorem groupReposStep_extends (env : Env) (i : Nat) (name : String) (j : Nat) (o : Options) :
    Extends o (groupReposStep env i name j o).1 := by
  simp only [groupReposStep]
  split
  · exact extends_refl o
  · exact forEach_rel Extends extends_refl extends_trans _ (repoStep_extends env i name j) _ o

theorem serverStep_extends (env : Env) (i : Nat) (o : Options) :
    Extends o (serverStep env i o).1 := by
  simp only [serverStep]
  split
  · exact extends_refl o
  · rename_i server _
    have h1 := forEach_rel Extends extends_refl extends_trans _
      (folderStep_extends env i server.Server) (List.range server.Groups.length) o
    split
    · rename_i o1 heq
      rw [heq] at h1
      split
      · exact h1
      · exact extends_trans _ _ _ h1
          (forEach_rel Extends extends_refl extends_trans _
            (groupReposStep_extends env i server.Server) _ o1)
    · exact h1

theorem collect_extends (env : Env) (o : Options) : Extends o (collect env o).1 :=
  forEach_rel Extends extends_refl extends_trans _ (serverStep_extends env) _ o

/-! ## C3: a template file that does not exist -/

theorem okState_eq_some (r : Options × Status) (o : Options) (h : okState r = some o) :
    r = (o, Status.ok) := by
  obtain ⟨o', st⟩ := r
  cases st <;> simp [okState] at h
  rw [h]

theorem range_split (i n : Nat) (h : i < n) :
    List.range n = List.range i ++ i :: List.range' (i + 1) (n - i - 1) := by
  have h1 : n = (n - i - 1 + 1) + i := by omega
  conv_lhs => rw [h1, List.range_eq_range', ← List.range'_append 0 i (n - i - 1 + 1) 1]
  rw [List.range_eq_range', List.range'_succ]
  simp

theorem forEach_range_not_ok {σ : Type} (body : Nat → σ → σ × Status) (i n : Nat) (s s1 s2 : σ)
    (st : Status) (hi : i < n) (hpre : forEach body (List.range i) s = (s1, Status.ok))
    (hstep : body i s1 = (s2, st)) (hst : st ≠ Status.ok) :
    forEach body (List.range n) s = (s2, st) := by
  rw [range_split i n hi, forEach_append body _ _ s s1 hpre]
  exact forEach_cons_not_ok body i _ s1 s2 st hstep hst

theorem processJenkinsServerJobTemplate_missing (env : Env) (o : Options)
    (server key path : String) (data : List (String × String))
    (h : env.fileExists (filepathJoin [o.Dir, path]) = Except.ok false) :
    processJenkinsServerJobTemplate env o server key path data
      = (o, Status.err ("the jobTemplate file " ++ filepathJoin [o.Dir, path]
          ++ " does not exist")) := by
  simp [processJenkinsServerJobTemplate, h]

theorem Run_collect_not_ok (env : Env) (o o3 : Options) (i : Nat) (o4 : Options) (st : Status)
    (hat : atServer env o i = some o3) (hstep : serverStep env i o3 = (o4, st))
    (hst : st ≠ Status.ok) :
    Run env o = { options := o4, written := [], status := st } := by
  simp only [atServer, Option.bind_eq_some] at hat
  obtain ⟨o1, h1, o2, h2, h3⟩ := hat
  split at h3
  · rename_i hi
    have hv := okState_eq_some _ _ h1
    have hd := okState_eq_some _ _ h2
    have hpre := okState_eq_some _ _ h3
    have hc : collect env o2 = (o4, st) :=
      forEach_range_not_ok (serverStep env) i _ o2 o3 o4 st hi hpre hstep hst
    cases st with
    | ok => exact absurd rfl hst
    | err msg => simp [Run, hv, hd, hc]
    | panicked msg => simp [Run, hv, hd, hc]
  · simp at h3

theorem Run_group_template_missing (env : Env) (o : Options) (i j : Nat) (name : String)
    (o4 : Options) (server : JenkinsServer) (group : RepositoryGroup)
    (hat : atFolderStep env o i j = some (name, o4))
    (hserver : serverAt o4 i = some server) (hgroup : groupAt o4 i j = some group)
    (hrepos : group.Repositories ≠ []) (hname : name ≠ "")
    (htemplate : firstNonBlankValue [group.JenkinsFolderTemplate, server.FolderTemplate,
      o4.SourceConfig.Spec.JenkinsFolderTemplate] ≠ "")
    (hmissing : env.fileExists (filepathJoin [o4.Dir,
      firstNonBlankValue [group.JenkinsFolderTemplate, server.FolderTemplate,
        o4.SourceConfig.Spec.JenkinsFolderTemplate]]) = Except.ok false) :
    Run env o =
      { options := o4, written := [],
        status := Status.err (wrapf ("failed to process Jenkins Config for group " ++ group.Owner)
          ("the jobTemplate file " ++ filepathJoin [o4.Dir,
            firstNonBlankValue [group.JenkinsFolderTemplate, server.FolderTemplate,
              o4.SourceConfig.Spec.JenkinsFolderTemplate]] ++ " does not exist")) } := by
  simp only [atFolderStep, Option.bind_eq_some] at hat
  obtain ⟨o3, hat3, server3, hs3, hrest⟩ := hat
  split at hrest
  · rename_i hj
    simp only [Option.map_eq_some', Prod.mk.injEq] at hrest
    obtain ⟨o4', hpre, hn, ho⟩ := hrest
    subst ho
    have hpre := okState_eq_some _ _ hpre
    rw [hn] at hpre
    have hlen : group.Repositories.length > 0 := List.length_pos.2 hrepos
    have hstep : folderStep env i name j o4' = (o4', Status.err
        (wrapf ("failed to process Jenkins Config for group " ++ group.Owner)
          ("the jobTemplate file " ++ filepathJoin [o4'.Dir,
            firstNonBlankValue [group.JenkinsFolderTemplate, server.FolderTemplate,
              o4'.SourceConfig.Spec.JenkinsFolderTemplate]] ++ " does not exist"))) := by
      simp only [folderStep, hserver, hgroup, hlen, if_true, processJenkinsJobConfigForGroup,
        hname, htemplate, if_false, processJenkinsServerJobTemplate_missing env o4' _ _ _ _
          hmissing]
    have hloop := forEach_range_not_ok (folderStep env i name) j server3.Groups.length o3 o4' o4'
      _ hj hpre hstep (by simp)
    refine Run_collect_not_ok env o o3 i o4' _ hat3 ?_ (by simp)
    simp only [serverStep, hs3, hn, hloop]
  · simp at hrest

theorem Run_repo_template_missing (env : Env) (o : Options) (i j k : Nat) (name : String)
    (o6 : Options) (group0 : RepositoryGroup) (repo0 repo : Repository)
    (server : JenkinsServer) (group : RepositoryGroup)
    (hat : atRepoStep env o i j k = some (name, o6))
    (hgroup0 : groupAt o6 i j = some group0) (hrepo0 : group0.Repositories[k]? = some repo0)
    (hdefault : env.defaultValues o6.SourceConfig group0 repo0 = Except.ok repo)
    (hserver : serverAt (setRepo o6 i j k repo) i = some server)
    (hgroup : groupAt (setRepo o6 i j k repo) i j = some group)
    (hname : name ≠ "")
    (htemplate : firstNonBlankValue [repo.JenkinsJobTemplate, group.JenkinsJobTemplate,
      server.JobTemplate, (setRepo o6 i j k repo).SourceConfig.Spec.JenkinsJobTemplate] ≠ "")
    (hmissing : env.fileExists (filepathJoin [(setRepo o6 i j k repo).Dir,
      firstNonBlankValue [repo.JenkinsJobTemplate, group.JenkinsJobTemplate,
        server.JobTemplate, (setRepo o6 i j k repo).SourceConfig.Spec.JenkinsJobTemplate]])
      = Except.ok false) :
    Run env o =
      { options := setRepo o6 i j k repo, written := [],
        status := Status.err
          (wrapf ("failed to process Jenkins Config for repository " ++ repo.Name)
            ("the jobTemplate file " ++ filepathJoin [(setRepo o6 i j k repo).Dir,
              firstNonBlankValue [repo.JenkinsJobTemplate, group.JenkinsJobTemplate,
                server.JobTemplate,
                (setRepo o6 i j k repo).SourceConfig.Spec.JenkinsJobTemplate]]
              ++ " does not exist")) } := by
  simp only [atRepoStep, Option.bind_eq_some] at hat
  obtain ⟨o3, hat3, server3, hs3, o4, hfold, server4, hs4, hrest⟩ := hat
  have hfold := okState_eq_some _ _ hfold
  split at hrest
  · rename_i hj
    simp only [Option.bind_eq_some] at hrest
    obtain ⟨o5, hpre5, group5, hg5, hrest⟩ := hrest
    have hpre5 := okState_eq_some _ _ hpre5
    split at hrest
    · rename_i hk
      simp only [Option.map_eq_some', Prod.mk.injEq] at hrest
      obtain ⟨o6', hpre6, hn, ho⟩ := hrest
      subst ho
      have hpre6 := okState_eq_some _ _ hpre6
      rw [hn] at hpre5 hpre6 hfold
      have hstep : repoStep env i name j k o6' = (setRepo o6' i j k repo, Status.err
          (wrapf ("failed to process Jenkins Config for repository " ++ repo.Name)
            ("the jobTemplate file " ++ filepathJoin [(setRepo o6' i j k repo).Dir,
              firstNonBlankValue [repo.JenkinsJobTemplate, group.JenkinsJobTemplate,
                server.JobTemplate,
                (setRepo o6' i j k repo).SourceConfig.Spec.JenkinsJobTemplate]]
              ++ " does not exist"))) := by
        simp only [repoStep, hgroup0, hrepo0, hdefault, hserver, hgroup,
          processJenkinsJobConfigForRepository, hname, htemplate, if_false,
          processJenkinsServerJobTemplate_missing env (setRepo o6' i j k repo) _ _ _ _ hmissing]
      have hloop6 := forEach_range_not_ok (repoStep env i name j) k group5.Repositories.length
        o5 o6' _ _ hk hpre6 hstep (by simp)
      have hstep5 : groupReposStep env i name j o5
          = forEach (repoStep env i name j) (List.range group5.Repositories.length) o5 := by
        simp only [groupReposStep, hg5]
      rw [hloop6] at hstep5
      have hloop5 := forEach_range_not_ok (groupReposStep env i name) j server4.Groups.length
        o4 o5 _ _ hj hpre5 hstep5 (by simp)
      refine Run_collect_not_ok env o o3 i _ _ hat3 ?_ (by simp)
      simp only [serverStep, hs3, hn, hfold, hs4]
      exact hloop5
    · simp at hrest
  · simp at hrest

/-- C3 (amended): when `Run` comes to a group with at least one repository, or to a
repository, whose server name is non-empty and whose resolved template path is non-empty,
and the file at that path joined onto the working directory does not exist, `Run` returns
an error whose message names the joined path; the receiver is left as it was on reaching
the group (for a repository: with the repository normalised in place and every sequence
of the map as it was), so no request is queued for the entity; and no values file is
written. -/
theorem Run_template_missing (env : Env) (o : Options) :
    (∀ (i j : Nat) (name : String) (o4 : Options) (server : JenkinsServer)
        (group : RepositoryGroup),
      atFolderStep env o i j = some (name, o4) →
      serverAt o4 i = some server → groupAt o4 i j = some group →
      group.Repositories ≠ [] → name ≠ "" →
      firstNonBlankValue [group.JenkinsFolderTemplate, server.FolderTemplate,
        o4.SourceConfig.Spec.JenkinsFolderTemplate] ≠ "" →
      env.fileExists (filepathJoin [o4.Dir,
        firstNonBlankValue [group.JenkinsFolderTemplate, server.FolderTemplate,
          o4.SourceConfig.Spec.JenkinsFolderTemplate]]) = Except.ok false →
      Run env o =
        { options := o4, written := [],
          status := Status.err
            (wrapf ("failed to process Jenkins Config for group " ++ group.Owner)
              ("the jobTemplate file " ++ filepathJoin [o4.Dir,
                firstNonBlankValue [group.JenkinsFolderTemplate, server.FolderTemplate,
                  o4.SourceConfig.Spec.JenkinsFolderTemplate]] ++ " does not exist")) }) ∧
    (∀ (i j k : Nat) (name : String) (o6 : Options) (group0 : RepositoryGroup)
        (repo0 repo : Repository) (server : JenkinsServer) (group : RepositoryGroup),
      atRepoStep env o i j k = some (name, o6) →
      groupAt o6 i j = some group0 → group0.Repositories[k]? = some repo0 →
      env.defaultValues o6.SourceConfig group0 repo0 = Except.ok repo →
      serverAt (setRepo o6 i j k repo) i = some server →
      groupAt (setRepo o6 i j k repo) i j = some group →
      name ≠ "" →
      firstNonBlankValue [repo.JenkinsJobTemplate, group.JenkinsJobTemplate,
        server.JobTemplate, (setRepo o6 i j k repo).SourceConfig.Spec.JenkinsJobTemplate] ≠ "" →
      env.fileExists (filepathJoin [(setRepo o6 i j k repo).Dir,
        firstNonBlankValue [repo.JenkinsJobTemplate, group.JenkinsJobTemplate,
          server.JobTemplate, (setRepo o6 i j k repo).SourceConfig.Spec.JenkinsJobTemplate]])
        = Except.ok false →
      Run env o =
        { options := setRepo o6 i j k repo, written := [],
          status := Status.err
            (wrapf ("failed to process Jenkins Config for repository " ++ repo.Name)
              ("the jobTemplate file " ++ filepathJoin [(setRepo o6 i j k repo).Dir,
                firstNonBlankValue [repo.JenkinsJobTemplate, group.JenkinsJobTemplate,
                  server.JobTemplate,
                  (setRepo o6 i j k repo).SourceConfig.Spec.JenkinsJobTemplate]]
                ++ " does not exist")) } ∧
      ∀ s, sequenceOf (setRepo o6 i j k repo) s = sequenceOf o6 s) :=
  ⟨fun i j name o4 server group h1 h2 h3 h4 h5 h6 h7 =>
      Run_group_template_missing env o i j name o4 server group h1 h2 h3 h4 h5 h6 h7,
    fun i j k name o6 group0 repo0 repo server group h1 h2 h3 h4 h5 h6 h7 h8 h9 =>
      ⟨Run_repo_template_missing env o i j k name o6 group0 repo0 repo server group
        h1 h2 h3 h4 h5 h6 h7 h8 h9, fun s => setRepo_sequenceOf o6 i j k repo s⟩⟩

/-- Witness of `Run_template_missing`: in the three-group config, first the folder template
`tools.gotmpl` of the group `tools` does not exist: the run stops there, with the folder
request of `acme` queued and nothing written; then the job template `gadgets.gotmpl` of the
repository `tools/gadgets` does not exist: the run stops there, with the two folder requests
and the job request of `acme/widgets` queued and nothing written. -/
theorem Run_template_missing_witness :
    (Run (envWith ["dir/.jx/gitops/source-config.yaml", "dir/folder.gotmpl", "dir/job.gotmpl"]
        threeGroupConfig) (flagOptions "dir" "")).status
      = Status.err ("failed to process Jenkins Config for group tools: "
          ++ "the jobTemplate file dir/tools.gotmpl does not exist") ∧
    (Run (envWith ["dir/.jx/gitops/source-config.yaml", "dir/folder.gotmpl", "dir/job.gotmpl"]
        threeGroupConfig) (flagOptions "dir" "")).written = [] ∧
    (sequenceOf (Run (envWith ["dir/.jx/gitops/source-config.yaml", "dir/folder.gotmpl",
        "dir/job.gotmpl"] threeGroupConfig) (flagOptions "dir" "")).options "jx").map
      (fun request => request.Key) = ["acme"] ∧
    (Run (envWith ["dir/.jx/gitops/source-config.yaml", "dir/folder.gotmpl", "dir/job.gotmpl",
        "dir/tools.gotmpl"] threeGroupConfig) (flagOptions "dir" "")).status
      = Status.err ("failed to process Jenkins Config for repository gadgets: "
          ++ "the jobTemplate file dir/gadgets.gotmpl does not exist") ∧
    (Run (envWith ["dir/.jx/gitops/source-config.yaml", "dir/folder.gotmpl", "dir/job.gotmpl",
        "dir/tools.gotmpl"] threeGroupConfig) (flagOptions "dir" "")).written = [] ∧
    (sequenceOf (Run (envWith ["dir/.jx/gitops/source-config.yaml", "dir/folder.gotmpl",
        "dir/job.gotmpl", "dir/tools.gotmpl"] threeGroupConfig)
        (flagOptions "dir" "")).options "jx").map
      (fun request => request.Key) = ["acme", "tools", "acme/widgets"] := by
  have h := (Run_template_missing
    (envWith ["dir/.jx/gitops/source-config.yaml", "dir/folder.gotmpl", "dir/job.gotmpl"]
      threeGroupConfig) (flagOptions "dir" "")).1 0 2 "jx" _ _ tools rfl rfl rfl
      (by decide) (by decide) (by decide) rfl
  have h2 := ((Run_template_missing
    (envWith ["dir/.jx/gitops/source-config.yaml", "dir/folder.gotmpl", "dir/job.gotmpl",
      "dir/tools.gotmpl"] threeGroupConfig) (flagOptions "dir" "")).2 0 2 0 "jx" _ tools
      gadgets gadgets _ tools rfl rfl rfl rfl rfl rfl (by decide) (by decide) rfl).1
  rw [h, h2]
  decide

/-- C3 (counterexample): the group `empty` of the server `jx` resolves to the folder template
`missing.gotmpl`, whose file does not exist, yet it has no repository and `Run` returns no
error and writes the values file of `jx`; and when the templates of the group `tools` and of
its repository `gadgets` are both missing, the error names the first file only. -/
theorem Run_template_missing_counterexample :
    firstNonBlankValue [emptyGroup.JenkinsFolderTemplate, "folder.gotmpl", ""]
      = "missing.gotmpl" ∧
    (envWith ["dir/.jx/gitops/source-config.yaml", "dir/folder.gotmpl", "dir/job.gotmpl",
        "dir/tools.gotmpl", "dir/gadgets.gotmpl"] threeGroupConfig).fileExists
      (filepathJoin ["dir", "missing.gotmpl"]) = Except.ok false ∧
    (Run (envWith ["dir/.jx/gitops/source-config.yaml", "dir/folder.gotmpl", "dir/job.gotmpl",
        "dir/tools.gotmpl", "dir/gadgets.gotmpl"] threeGroupConfig)
      (flagOptions "dir" "")).status = Status.ok ∧
    (Run (envWith ["dir/.jx/gitops/source-config.yaml", "dir/folder.gotmpl", "dir/job.gotmpl",
        "dir/tools.gotmpl", "dir/gadgets.gotmpl"] threeGroupConfig)
      (flagOptions "dir" "")).written.map Prod.fst = ["dir/helmfiles/jx/job-values.yaml"] ∧
    firstNonBlankValue [gadgets.JenkinsJobTemplate, tools.JenkinsJobTemplate, "job.gotmpl", ""]
      = "gadgets.gotmpl" ∧
    (envWith ["dir/.jx/gitops/source-config.yaml", "dir/folder.gotmpl", "dir/job.gotmpl"]
        threeGroupConfig).fileExists (filepathJoin ["dir", "gadgets.gotmpl"])
      = Except.ok false ∧
    occursIn "dir/gadgets.gotmpl"
      (messageOf (Run (envWith ["dir/.jx/gitops/source-config.yaml", "dir/folder.gotmpl",
        "dir/job.gotmpl"] threeGroupConfig) (flagOptions "dir" "")).status) = false := by
  refine ⟨?_, rfl, ?_, ?_, ?_, rfl, ?_⟩ <;> decide

/-! ## The collection phase returns no error when nothing fails -/

theorem processJenkinsServerJobTemplate_progress (env : Env) (o : Options) (m : ServerTemplates)
    (server key path : String) (data : List (String × String))
    (hfiles : ∀ p, env.fileExists p = Except.ok true)
    (hread : ∀ p, ∃ text, env.readFile p = Except.ok text)
    (hm : o.JenkinsServerTemplates = some m) :
    ∃ o1, processJenkinsServerJobTemplate env o server key path data = (o1, Status.ok) := by
  obtain ⟨text, ht⟩ := hread (filepathJoin [o.Dir, path])
  simp only [processJenkinsServerJobTemplate, hfiles, ht, hm]
  exact ⟨_, rfl⟩

theorem processJenkinsJobConfigForGroup_progress (env : Env) (o : Options) (m : ServerTemplates)
    (g : RepositoryGroup) (name template : String)
    (hfiles : ∀ p, env.fileExists p = Except.ok true)
    (hread : ∀ p, ∃ text, env.readFile p = Except.ok text)
    (hm : o.JenkinsServerTemplates = some m) :
    ∃ o1, processJenkinsJobConfigForGroup env o g name template = (o1, Status.ok) := by
  simp only [processJenkinsJobConfigForGroup]
  split
  · exact ⟨o, rfl⟩
  · split
    · exact ⟨o, rfl⟩
    · exact processJenkinsServerJobTemplate_progress env o m _ _ _ _ hfiles hread hm

theorem processJenkinsJobConfigForRepository_progress (env : Env) (o : Options)
    (m : ServerTemplates) (g : RepositoryGroup) (r : Repository) (name template : String)
    (hfiles : ∀ p, env.fileExists p = Except.ok true)
    (hread : ∀ p, ∃ text, env.readFile p = Except.ok text)
    (hm : o.JenkinsServerTemplates = some m) :
    ∃ o1, processJenkinsJobConfigForRepository env o g r name template = (o1, Status.ok) := by
  simp only [processJenkinsJobConfigForRepository]
  split
  · exact ⟨o, rfl⟩
  · split
    · exact ⟨o, rfl⟩
    · exact processJenkinsServerJobTemplate_progress env o m _ _ _ _ hfiles hread hm

theorem folderStep_progress (env : Env) (i : Nat) (name : String) (j : Nat) (o : Options)
    (m : ServerTemplates) (server : JenkinsServer) (g : RepositoryGroup)
    (hfiles : ∀ p, env.fileExists p = Except.ok true)
    (hread : ∀ p, ∃ text, env.readFile p = Except.ok text)
    (hs : serverAt o i = some server) (hg : server.Groups[j]? = some g)
    (hm : o.JenkinsServerTemplates = some m) :
    ∃ o1, folderStep env i name j o = (o1, Status.ok) := by
  have hga : groupAt o i j = some g := by rw [groupAt_eq o i j server hs, hg]
  simp only [folderStep, hs, hga]
  split
  · obtain ⟨o1, h1⟩ := processJenkinsJobConfigForGroup_progress env o m g name
      (firstNonBlankValue [g.JenkinsFolderTemplate, server.FolderTemplate,
        o.SourceConfig.Spec.JenkinsFolderTemplate]) hfiles hread hm
    rw [h1]
    exact ⟨o1, rfl⟩
  · exact ⟨o, rfl⟩

theorem repoStep_progress (env : Env) (i : Nat) (name : String) (j k : Nat) (o : Options)
    (m : ServerTemplates) (server : JenkinsServer) (g : RepositoryGroup) (r0 : Repository)
    (hfiles : ∀ p, env.fileExists p = Except.ok true)
    (hread : ∀ p, ∃ text, env.readFile p = Except.ok text)
    (hdefault : ∀ c g r, ∃ r1, env.defaultValues c g r = Except.ok r1)
    (hs : serverAt o i = some server) (hg : server.Groups[j]? = some g)
    (hr : g.Repositories[k]? = some r0) (hm : o.JenkinsServerTemplates = some m) :
    ∃ o1, repoStep env i name j k o = (o1, Status.ok) := by
  have hga : groupAt o i j = some g := by rw [groupAt_eq o i j server hs, hg]
  have hi : i < o.SourceConfig.Spec.JenkinsServers.length := lt_of_getElem?_eq_some _ _ _ hs
  have hj : j < server.Groups.length := lt_of_getElem?_eq_some _ _ _ hg
  obtain ⟨r, hdv⟩ := hdefault o.SourceConfig g r0
  simp only [repoStep, hga, hr, hdv, setRepo_eq o i j k r server g hs hg]
  obtain ⟨g1, hg1e⟩ : ∃ g1, g1 = withRepos g (g.Repositories.set k r) := ⟨_, rfl⟩
  rw [← hg1e]
  obtain ⟨s1, hs1e⟩ : ∃ s1, s1 = withGroups server (server.Groups.set j g1) := ⟨_, rfl⟩
  rw [← hs1e]
  obtain ⟨ow, howe⟩ : ∃ ow, ow = withServers o (o.SourceConfig.Spec.JenkinsServers.set i s1) :=
    ⟨_, rfl⟩
  rw [← howe]
  have hs1 : serverAt ow i = some s1 := by
    rw [howe, serverAt_withServers, List.getElem?_set_self hi]
  have hg1 : groupAt ow i j = some g1 := by
    rw [groupAt_eq _ i j _ hs1, hs1e]
    exact List.getElem?_set_self hj
  have hmw : ow.JenkinsServerTemplates = some m := by rw [howe]; exact hm
  simp only [hs1, hg1]
  obtain ⟨o1, h1⟩ := processJenkinsJobConfigForRepository_progress env ow m g1 r name
    (firstNonBlankValue [r.JenkinsJobTemplate, g1.JenkinsJobTemplate, s1.JobTemplate,
      ow.SourceConfig.Spec.JenkinsJobTemplate]) hfiles hread hmw
  rw [h1]
  exact ⟨o1, rfl⟩

theorem forEach_cons_of_ok {α σ : Type} (body : α → σ → σ × Status) (x : α) (xs : List α)
    (s s0 : σ) (h : body x s = (s0, Status.ok)) :
    forEach body (x :: xs) s = forEach body xs s0 := by
  simp [forEach, h]

theorem repoLoop_progress (env : Env) (i : Nat) (name : String) (j : Nat)
    (hfiles : ∀ p, env.fileExists p = Except.ok true)
    (hread : ∀ p, ∃ text, env.readFile p = Except.ok text)
    (hdefault : ∀ c g r, ∃ r1, env.defaultValues c g r = Except.ok r1)
    (todo : List Repository) :
    ∀ (done : List Repository) (o : Options) (m : ServerTemplates) (server : JenkinsServer)
      (g : RepositoryGroup),
      serverAt o i = some server → server.Server = name → server.Groups[j]? = some g →
      g.Repositories = done ++ todo → o.JenkinsServerTemplates = some m →
      ∃ o1, forEach (repoStep env i name j) (List.range' done.length todo.length) o
        = (o1, Status.ok) := by
  induction todo with
  | nil =>
    intro done o m server g _ _ _ _ _
    exact ⟨o, by simp [forEach]⟩
  | cons t rest ih =>
    intro done o m server g hs hname hg hrepos hm
    have hr : g.Repositories[done.length]? = some t := by
      rw [hrepos, List.getElem?_append_right (le_refl _)]; simp
    obtain ⟨o0, hstep⟩ := repoStep_progress env i name j done.length o m server g t
      hfiles hread hdefault hs hg hr hm
    obtain ⟨r, m0, ho0, -⟩ :=
      repoStep_ok env i name j done.length o o0 m server g t hs hname hg hr hm hstep
    have hset : g.Repositories.set done.length r = (done ++ [r]) ++ rest := by
      rw [hrepos]; simp
    rw [hset] at ho0
    have hi : i < o.SourceConfig.Spec.JenkinsServers.length := lt_of_getElem?_eq_some _ _ _ hs
    have hj : j < server.Groups.length := lt_of_getElem?_eq_some _ _ _ hg
    have hs0 : serverAt o0 i = some (withGroups server (server.Groups.set j
        (withRepos g ((done ++ [r]) ++ rest)))) := by
      rw [ho0]
      exact List.getElem?_set_self hi
    obtain ⟨o1, h1⟩ := ih (done ++ [r]) o0 m0 _ (withRepos g ((done ++ [r]) ++ rest))
      hs0 hname (List.getElem?_set_self hj) rfl (by rw [ho0]; rfl)
    have hlen : (done ++ [r]).length = done.length + 1 := by simp
    rw [hlen] at h1
    exact ⟨o1, by rw [List.length_cons, List.range'_succ, forEach_cons_of_ok _ _ _ _ _ hstep, h1]⟩

theorem groupsLoop_progress (env : Env) (i : Nat) (name : String)
    (hfiles : ∀ p, env.fileExists p = Except.ok true)
    (hread : ∀ p, ∃ text, env.readFile p = Except.ok text)
    (hdefault : ∀ c g r, ∃ r1, env.defaultValues c g r = Except.ok r1)
    (gtodo : List RepositoryGroup) :
    ∀ (gdone : List RepositoryGroup) (o : Options) (m : ServerTemplates)
      (server : JenkinsServer),
      serverAt o i = some server → server.Server = name → server.Groups = gdone ++ gtodo →
      o.JenkinsServerTemplates = some m →
      ∃ o1, forEach (groupReposStep env i name) (List.range' gdone.length gtodo.length) o
        = (o1, Status.ok) := by
  induction gtodo with
  | nil =>
    intro gdone o m server _ _ _ _
    exact ⟨o, by simp [forEach]⟩
  | cons g rest ih =>
    intro gdone o m server hs hname hgroups hm
    have hg : server.Groups[gdone.length]? = some g := by
      rw [hgroups, List.getElem?_append_right (le_refl _)]; simp
    have hga : groupAt o i gdone.length = some g := by rw [groupAt_eq o i _ server hs, hg]
    obtain ⟨o0, hloop⟩ := repoLoop_progress env i name gdone.length hfiles hread hdefault
      g.Repositories [] o m server g hs hname hg rfl hm
    have hstep : groupReposStep env i name gdone.length o = (o0, Status.ok) := by
      simp only [groupReposStep, hga, List.range_eq_range']
      exact hloop
    obtain ⟨g1, m0, -, ho0, -⟩ :=
      groupReposStep_ok env i name gdone.length o o0 m server g hs hname hg hm hstep
    have hset : server.Groups.set gdone.length g1 = (gdone ++ [g1]) ++ rest := by
      rw [hgroups]; simp
    rw [hset] at ho0
    have hi : i < o.SourceConfig.Spec.JenkinsServers.length := lt_of_getElem?_eq_some _ _ _ hs
    have hs0 : serverAt o0 i = some (withGroups server ((gdone ++ [g1]) ++ rest)) := by
      rw [ho0]
      exact List.getElem?_set_self hi
    obtain ⟨o1, h1⟩ := ih (gdone ++ [g1]) o0 m0 _ hs0 hname rfl (by rw [ho0]; rfl)
    have hlen : (gdone ++ [g1]).length = gdone.length + 1 := by simp
    rw [hlen] at h1
    exact ⟨o1, by rw [List.length_cons, List.range'_succ, forEach_cons_of_ok _ _ _ _ _ hstep, h1]⟩

theorem folderLoop_progress (env : Env) (i : Nat) (name : String)
    (hfiles : ∀ p, env.fileExists p = Except.ok true)
    (hread : ∀ p, ∃ text, env.readFile p = Except.ok text)
    (gtodo : List RepositoryGroup) :
    ∀ (gdone : List RepositoryGroup) (o : Options) (m : ServerTemplates)
      (server : JenkinsServer),
      serverAt o i = some server → server.Server = name → server.Groups = gdone ++ gtodo →
      o.JenkinsServerTemplates = some m →
      ∃ o1, forEach (folderStep env i name) (List.range' gdone.length gtodo.length) o
        = (o1, Status.ok) := by
  induction gtodo with
  | nil =>
    intro gdone o m server _ _ _ _
    exact ⟨o, by simp [forEach]⟩
  | cons g rest ih =>
    intro gdone o m server hs hname hgroups hm
    have hg : server.Groups[gdone.length]? = some g := by
      rw [hgroups, List.getElem?_append_right (le_refl _)]; simp
    obtain ⟨o0, hstep⟩ := folderStep_progress env i name gdone.length o m server g
      hfiles hread hs hg hm
    obtain ⟨m0, ho0, -⟩ :=
      folderStep_ok env i name gdone.length o o0 m server g hs hname hg hm hstep
    obtain ⟨o1, h1⟩ := ih (gdone ++ [g]) o0 m0 server
      (by rw [ho0]; exact hs) hname (by rw [hgroups]; simp) (by rw [ho0]; rfl)
    have hlen : (gdone ++ [g]).length = gdone.length + 1 := by simp
    rw [hlen] at h1
    exact ⟨o1, by rw [List.length_cons, List.range'_succ, forEach_cons_of_ok _ _ _ _ _ hstep, h1]⟩

theorem serverStep_progress (env : Env) (i : Nat) (o : Options) (m : ServerTemplates)
    (server : JenkinsServer)
    (hfiles : ∀ p, env.fileExists p = Except.ok true)
    (hread : ∀ p, ∃ text, env.readFile p = Except.ok text)
    (hdefault : ∀ c g r, ∃ r1, env.defaultValues c g r = Except.ok r1)
    (hs : serverAt o i = some server) (hm : o.JenkinsServerTemplates = some m) :
    ∃ o1, serverStep env i o = (o1, Status.ok) := by
  obtain ⟨o0, hf⟩ := folderLoop_progress env i server.Server hfiles hread server.Groups [] o m
    server hs rfl rfl hm
  obtain ⟨m0, ho0, -⟩ :=
    folderLoop_ok env i server.Server server.Groups [] o o0 m server hs rfl rfl hm hf
  have hs0 : serverAt o0 i = some server := by rw [ho0]; exact hs
  obtain ⟨o1, hg⟩ := groupsLoop_progress env i server.Server hfiles hread hdefault server.Groups
    [] o0 m0 server hs0 rfl rfl (by rw [ho0]; rfl)
  refine ⟨o1, ?_⟩
  simp only [List.length_nil] at hf hg
  simp only [serverStep, hs, List.range_eq_range', hf, hs0, hg]

theorem serversLoop_progress (env : Env)
    (hfiles : ∀ p, env.fileExists p = Except.ok true)
    (hread : ∀ p, ∃ text, env.readFile p = Except.ok text)
    (hdefault : ∀ c g r, ∃ r1, env.defaultValues c g r = Except.ok r1)
    (stodo : List JenkinsServer) :
    ∀ (sdone : List JenkinsServer) (o : Options) (m : ServerTemplates),
      o.SourceConfig.Spec.JenkinsServers = sdone ++ stodo →
      o.JenkinsServerTemplates = some m →
      ∃ o1, forEach (serverStep env) (List.range' sdone.length stodo.length) o
        = (o1, Status.ok) := by
  induction stodo with
  | nil =>
    intro sdone o m _ _
    exact ⟨o, by simp [forEach]⟩
  | cons server rest ih =>
    intro sdone o m hservers hm
    have hs : serverAt o sdone.length = some server := by
      simp only [serverAt]
      rw [hservers, List.getElem?_append_right (le_refl _)]; simp
    obtain ⟨o0, hstep⟩ := serverStep_progress env sdone.length o m server hfiles hread hdefault
      hs hm
    obtain ⟨groups1, m0, -, ho0, -⟩ := serverStep_ok env sdone.length o o0 m server hs hm hstep
    have hset : o.SourceConfig.Spec.JenkinsServers.set sdone.length (withGroups server groups1)
        = (sdone ++ [withGroups server groups1]) ++ rest := by
      rw [hservers]; simp
    rw [hset] at ho0
    obtain ⟨o1, h1⟩ := ih (sdone ++ [withGroups server groups1]) o0 m0
      (by rw [ho0]; rfl) (by rw [ho0]; rfl)
    have hlen : (sdone ++ [withGroups server groups1]).length = sdone.length + 1 := by simp
    rw [hlen] at h1
    exact ⟨o1, by rw [List.length_cons, List.range'_succ, forEach_cons_of_ok _ _ _ _ _ hstep, h1]⟩

theorem collect_progress (env : Env) (o : Options) (m : ServerTemplates)
    (hfiles : ∀ p, env.fileExists p = Except.ok true)
    (hread : ∀ p, ∃ text, env.readFile p = Except.ok text)
    (hdefault : ∀ c g r, ∃ r1, env.defaultValues c g r = Except.ok r1)
    (hm : o.JenkinsServerTemplates = some m) :
    ∃ o1, collect env o = (o1, Status.ok) := by
  obtain ⟨o1, h⟩ := serversLoop_progress env hfiles hread hdefault
    o.SourceConfig.Spec.JenkinsServers [] o m rfl hm
  exact ⟨o1, by simpa only [collect, List.range_eq_range'] using h⟩

/-! ## C2: arrival order of the queued requests -/

/-- C2: the collection phase of `Run` only appends to the sequences of the server map,
whatever its outcome; on a receiver whose map has been made it returns no error when the
template files exist and are read and the normaliser does not fail; and whenever it returns
no error on such a receiver, the source config is left with its repositories normalised in
place, and the sequence stored under each server name is the sequence stored before
followed, for each server entry of that name in order, by the folder requests of its groups
(in group order, only groups with at least one repository, keyed by the owner) and after
them the job requests of its repositories (in group order, then repository order). -/
theorem collect_arrival_order (env : Env) (o : Options) :
    Extends o (collect env o).1 ∧
    ((∀ p, env.fileExists p = Except.ok true) →
      (∀ p, ∃ text, env.readFile p = Except.ok text) →
      (∀ c g r, ∃ r1, env.defaultValues c g r = Except.ok r1) →
      ∀ m : ServerTemplates, o.JenkinsServerTemplates = some m →
        (collect env o).2 = Status.ok) ∧
    ∀ (o1 : Options) (m : ServerTemplates), o.JenkinsServerTemplates = some m →
      collect env o = (o1, Status.ok) →
      ∃ m1, o1.JenkinsServerTemplates = some m1 ∧
        List.Forall₂ NormalisedServer o.SourceConfig.Spec.JenkinsServers
          o1.SourceConfig.Spec.JenkinsServers ∧
        o1.Dir = o.Dir ∧
        o1.SourceConfig.Spec.JenkinsFolderTemplate = o.SourceConfig.Spec.JenkinsFolderTemplate ∧
        o1.SourceConfig.Spec.JenkinsJobTemplate = o.SourceConfig.Spec.JenkinsJobTemplate ∧
        ∀ s, mapGet m1 s = mapGet m s ++
          ((o1.SourceConfig.Spec.JenkinsServers.filter (fun server => server.Server = s)).map
            (fun server =>
              server.Groups.filterMap
                (folderRequest env o1.Dir o1.SourceConfig.Spec.JenkinsFolderTemplate server)
              ++ (server.Groups.map (fun group =>
                group.Repositories.filterMap
                  (jobRequest env o1.Dir o1.SourceConfig.Spec.JenkinsJobTemplate server group))
                ).flatten)).flatten := by
  refine ⟨collect_extends env o, ?_, ?_⟩
  · intro hfiles hread hdefault m hm
    obtain ⟨o1, h⟩ := collect_progress env o m hfiles hread hdefault hm
    rw [h]
  intro o1 m hm h
  obtain ⟨servers1, m1, hnorm, ho1, happ⟩ := collect_ok env o o1 m hm h
  refine ⟨m1, by rw [ho1]; rfl, by rw [ho1]; exact hnorm, by rw [ho1]; rfl, by rw [ho1]; rfl,
    by rw [ho1]; rfl, ?_⟩
  intro s
  rw [happ s]
  rfl

/-- Witness of `collect_arrival_order`: the server `jx` with the groups `acme` (repository
`widgets`), `empty` (no repository) and `tools` (repository `gadgets`); the two folder
requests come first, in group order, then the two job requests. -/
theorem collect_arrival_order_witness :
    (sequenceOf (collect
        (envWith ["dir/folder.gotmpl", "dir/job.gotmpl", "dir/tools.gotmpl", "dir/gadgets.gotmpl"]
          threeGroupConfig)
        { flagOptions "dir" "" with
          SourceConfig := threeGroupConfig, JenkinsServerTemplates := some [] }).1 "jx").map
      (fun request => (request.Key, request.TemplateFile))
      = [("acme", "dir/folder.gotmpl"), ("tools", "dir/tools.gotmpl"),
         ("acme/widgets", "dir/job.gotmpl"), ("tools/gadgets", "dir/gadgets.gotmpl")] := by
  obtain ⟨m1, hm1, -, -, -, -, h⟩ := (collect_arrival_order
    (envWith ["dir/folder.gotmpl", "dir/job.gotmpl", "dir/tools.gotmpl", "dir/gadgets.gotmpl"]
      threeGroupConfig)
    { flagOptions "dir" "" with
      SourceConfig := threeGroupConfig, JenkinsServerTemplates := some [] }).2.2 _ [] rfl rfl
  simp only [sequenceOf, hm1, h "jx"]
  decide

end Jobs
